import Mathlib

/-!
Verification of the chunk storage and mesh-generation core of the
`cubizm_game` repository (crates `cubizm_chunks` and `cubizm_block`).

The Rust sources are embedded shallowly:

* `Block`, `VoxelVisibility` — `crates/cubizm_block/src/definition.rs` and the
  `block_mesh::VoxelVisibility` enum it stores.  Asset handles
  (`Handle<Block>`, `Handle<Image>`, `Handle<Mesh>`) are modelled by the
  immutable values they resolve to (`Block` values in grids, `Nat` ids for
  textures and meshes), since block assets are never mutated by the code
  under study.
* `Chunk`, `ChunkFace`, the face index tables and `gen_geometry` —
  `crates/cubizm_chunks/src/chunk/definition.rs`.
* `Chunks` (the world registry) with `insert_chunk`, `regenerate_chunk_at`,
  `insert_chunk_and_regenerate`, `set_block` —
  `crates/cubizm_chunks/src/chunks/definition.rs`.  The `HashMap<IVec3,
  ChunkEntity>` registry and the two bevy asset stores (chunk data, meshes)
  are merged into one map from lattice position to (chunk data, mesh),
  which is the observable state: a position's handles are generated fresh at
  insertion and never shared between positions.
* Rust panics (`expect`, `unwrap`, out-of-bounds indexing) are modelled as
  an explicit `panic` outcome; the post-panic state is not modelled (the
  process aborts).
-/

set_option maxRecDepth 100000

/-- Modelled from the spec: the `VoxelVisibility` enum of the external
`block_mesh` crate — visibility: Empty | Opaque | Translucent (spec §3). -/
inductive VoxelVisibility where
  | Empty
  | Translucent
  | Opaque
deriving DecidableEq, Repr

/-- Block definitions from `cubizm_block/src/definition.rs`: a block is a
voxel (name, optional texture, visibility) or a tile entity (name, texture,
static mesh).  Texture/mesh handles are represented by `Nat` ids. -/
inductive Block where
  | Voxel (name : String) (texture : Option Nat) (visibility : VoxelVisibility)
  | TileEntity (name : String) (texture : Nat) (mesh : Nat)
deriving DecidableEq, Repr

/-- Block::air() from `cubizm_block/src/definition.rs`. -/
def Block.air : Block := .Voxel "Air" none .Empty

/-- Block::is_voxel from `cubizm_block/src/definition.rs`. -/
def Block.is_voxel : Block → Bool
  | .Voxel _ _ _ => true
  | _ => false

/-- Block::voxel_texture from `cubizm_block/src/definition.rs`. -/
def Block.voxel_texture : Block → Option Nat
  | .Voxel _ t _ => t
  | _ => none

/-- Block::get_voxel_visibility from `cubizm_block/src/definition.rs`
(also the `Voxel` trait impl in `cubizm_block/src/voxel.rs`):
tile entities count as Empty. -/
def Block.get_voxel_visibility : Block → VoxelVisibility
  | .Voxel _ _ v => v
  | _ => .Empty

/-- CHUNK_SIZE from `cubizm_chunks/src/chunk/definition.rs`. -/
def CHUNK_SIZE : Nat := 16

/-- Padded edge length: CHUNK_SIZE + 2 = 18. -/
def PADDED : Nat := CHUNK_SIZE + 2

/-- Modelled from the spec: the fixed row-major linearization of the external
`ndshape::ConstShape3u32<18,18,18>` used as `ChunkShape` (spec §3: "flat
array of (16+2)³ BlockRef slots under a fixed linearization"). -/
def ChunkShape.linearize (x y z : Nat) : Nat :=
  x + PADDED * y + PADDED * PADDED * z

/-- Total number of padded-grid slots, `ChunkShape::SIZE` = 18³ = 5832. -/
def ChunkShape.SIZE : Nat := PADDED * PADDED * PADDED

/-- Delinearization inverse to `ChunkShape.linearize` (spec §8: coordinate
round-trip). -/
def ChunkShape.delinearize (i : Nat) : Nat × Nat × Nat :=
  (i % PADDED, i / PADDED % PADDED, i / (PADDED * PADDED))

/-- ChunkFace from `cubizm_chunks/src/chunk/definition.rs`. -/
inductive ChunkFace where
  | Front
  | Back
  | Top
  | Bottom
  | Left
  | Right
deriving DecidableEq, Repr

/-- Opposite::opposite for ChunkFace, from
`cubizm_chunks/src/chunk/definition.rs`. -/
def ChunkFace.opposite : ChunkFace → ChunkFace
  | .Back => .Front
  | .Bottom => .Top
  | .Left => .Right
  | .Front => .Back
  | .Top => .Bottom
  | .Right => .Left

/-- The padded coordinate range 0..CHUNK_SIZE+2 iterated by the face-table
loops. -/
def padRange : List Nat := List.range PADDED

/-- Chunk::get_own_face_indicies from
`cubizm_chunks/src/chunk/definition.rs`: the linear indices of a chunk's own
boundary layer toward a face, in the source's loop order (outer coordinate
first). -/
def Chunk.get_own_face_indicies : ChunkFace → List Nat
  | .Front => padRange.flatMap fun x => padRange.map fun y => ChunkShape.linearize x y 1
  | .Back => padRange.flatMap fun x => padRange.map fun y => ChunkShape.linearize x y CHUNK_SIZE
  | .Top => padRange.flatMap fun x => padRange.map fun z => ChunkShape.linearize x CHUNK_SIZE z
  | .Bottom => padRange.flatMap fun x => padRange.map fun z => ChunkShape.linearize x 1 z
  | .Right => padRange.flatMap fun y => padRange.map fun z => ChunkShape.linearize CHUNK_SIZE y z
  | .Left => padRange.flatMap fun y => padRange.map fun z => ChunkShape.linearize 1 y z

/-- Chunk::get_other_face_indicies from
`cubizm_chunks/src/chunk/definition.rs`: the linear indices of the padding
shell toward a face, paired positionally with `get_own_face_indicies`. -/
def Chunk.get_other_face_indicies : ChunkFace → List Nat
  | .Front => padRange.flatMap fun x => padRange.map fun y => ChunkShape.linearize x y 0
  | .Back => padRange.flatMap fun x => padRange.map fun y => ChunkShape.linearize x y (CHUNK_SIZE + 1)
  | .Top => padRange.flatMap fun x => padRange.map fun z => ChunkShape.linearize x (CHUNK_SIZE + 1) z
  | .Bottom => padRange.flatMap fun x => padRange.map fun z => ChunkShape.linearize x 0 z
  | .Right => padRange.flatMap fun y => padRange.map fun z => ChunkShape.linearize (CHUNK_SIZE + 1) y z
  | .Left => padRange.flatMap fun y => padRange.map fun z => ChunkShape.linearize 0 y z

example : (Chunk.get_own_face_indicies .Front).length = 324 := by decide
example : (Chunk.get_own_face_indicies .Front).head? = some (ChunkShape.linearize 0 0 1) := by decide

/-- Voxel grids: the flat `blocks` array of a chunk, as a total function from
linear index to the resolved block value.  Well-formed chunks populate
indices below `ChunkShape.SIZE`; all array accesses performed by the
embedded code are proved in bounds (claim C10). -/
abbrev Grid := Nat → Block

/-- Pointwise array-slot assignment `blocks[i] = v`. -/
def upd (g : Grid) (i : Nat) (v : Block) : Grid :=
  fun j => if j = i then v else g j

/-- Mesh-quad normal directions, in the group order of
`RIGHT_HANDED_Y_UP_CONFIG.faces` of the external `block_mesh` crate
(negative axes first). -/
inductive FaceDir where
  | NegX
  | NegY
  | NegZ
  | PosX
  | PosY
  | PosZ
deriving DecidableEq, Repr

/-- The six scan directions in buffer-group order. -/
def faceDirs : List FaceDir := [.NegX, .NegY, .NegZ, .PosX, .PosY, .PosZ]

/-- Coordinate of the immediate neighbour of a padded-grid cell in a given
direction, or `none` at the edge of the padded grid. -/
def neighborCoord : Nat × Nat × Nat → FaceDir → Option (Nat × Nat × Nat)
  | (x, y, z), .NegX => if x = 0 then none else some (x - 1, y, z)
  | (x, y, z), .NegY => if y = 0 then none else some (x, y - 1, z)
  | (x, y, z), .NegZ => if z = 0 then none else some (x, y, z - 1)
  | (x, y, z), .PosX => if x = PADDED - 1 then none else some (x + 1, y, z)
  | (x, y, z), .PosY => if y = PADDED - 1 then none else some (x, y + 1, z)
  | (x, y, z), .PosZ => if z = PADDED - 1 then none else some (x, y, z + 1)

/-- Every padded-grid coordinate (the scan range 0..=17 of spec §4.1). -/
def coordScan : List (Nat × Nat × Nat) :=
  padRange.flatMap fun x => padRange.flatMap fun y => padRange.map fun z => (x, y, z)

/-- Face-visibility test of spec §4.1 step 1: the voxel is non-empty
(Opaque/Translucent) and its immediate neighbour in the direction is Empty. -/
def faceVisible (g : Grid) (p : Nat × Nat × Nat) (d : FaceDir) : Bool :=
  (match (g (ChunkShape.linearize p.1 p.2.1 p.2.2)).get_voxel_visibility with
    | .Empty => false
    | _ => true)
  && (match neighborCoord p d with
    | none => false
    | some q =>
      match (g (ChunkShape.linearize q.1 q.2.1 q.2.2)).get_voxel_visibility with
      | .Empty => true
      | _ => false)

/-- Modelled from the spec: `block_mesh::visible_block_faces` (external
crate, not in this repository) per spec §4.1: for each of the 6 axis
directions, scan the padded coordinate range and mark a face visible iff
the voxel is non-empty and its immediate neighbour in that direction is
Empty.  Quads are grouped by direction, as in the `UnitQuadBuffer`. -/
def visible_block_faces (g : Grid) : List ((Nat × Nat × Nat) × FaceDir) :=
  faceDirs.flatMap fun d =>
    coordScan.filterMap fun p => if faceVisible g p d then some (p, d) else none

/-- Atlas-layout lookup service (bevy `TextureAtlasLayout`): texture id to
index into the atlas rectangle table. -/
structure TextureAtlasLayout where
  get_texture_index : Nat → Option Nat

/-- Panic causes of the embedded code (Rust `expect`/`unwrap`/indexing). -/
inductive PanicCause where
  | MissingTexture
  | MissingAtlasEntry
  | IndexOutOfBounds
  | UnwrapChunkNotFound
deriving DecidableEq, Repr

/-- One emitted unit quad of the triangle mesh.  Positions, normals, the
index list and the atlas-derived UV rectangle are all fixed functions of
the (cell, direction, atlas index) data recorded here and of the quad's
position in the list, so mesh equality is quad-list equality. -/
structure Quad where
  x : Nat
  y : Nat
  z : Nat
  dir : FaceDir
  atlasIndex : Nat
deriving DecidableEq, Repr

/-- Per-quad processing loop of Chunk::gen_geometry
(`cubizm_chunks/src/chunk/definition.rs` lines 220-272): non-voxel (tile
entity) quads are skipped; a voxel quad without a texture, or whose texture
is not in the atlas, panics (`expect`). -/
def emitQuads (texture_atlas : TextureAtlasLayout) (g : Grid) :
    List ((Nat × Nat × Nat) × FaceDir) → Except PanicCause (List Quad)
  | [] => .ok []
  | (p, d) :: rest =>
    let b := g (ChunkShape.linearize p.1 p.2.1 p.2.2)
    if b.is_voxel then
      match b.voxel_texture with
      | none => .error .MissingTexture
      | some t =>
        match texture_atlas.get_texture_index t with
        | none => .error .MissingAtlasEntry
        | some idx =>
          (emitQuads texture_atlas g rest).map
            fun qs => ⟨p.1, p.2.1, p.2.2, d, idx⟩ :: qs
    else
      emitQuads texture_atlas g rest

/-- Chunk::gen_geometry from `cubizm_chunks/src/chunk/definition.rs`: run
the visibility scan over the padded grid and resolve each visible quad's
texture against the atlas layout; a quad that cannot be resolved aborts the
whole call (Rust panic). -/
def gen_geometry (g : Grid) (texture_atlas : TextureAtlasLayout) :
    Except PanicCause (List Quad) :=
  emitQuads texture_atlas g (visible_block_faces g)

/-- Lattice positions (bevy `IVec3`). -/
structure IVec3 where
  x : Int
  y : Int
  z : Int
deriving DecidableEq, Repr

instance : Add IVec3 := ⟨fun a b => ⟨a.x + b.x, a.y + b.y, a.z + b.z⟩⟩

instance : Sub IVec3 := ⟨fun a b => ⟨a.x - b.x, a.y - b.y, a.z - b.z⟩⟩

/-- Componentwise division by a scalar, with Rust `i32` semantics
(truncation toward zero, `Int.tdiv`): glam's `IVec3 / i32`. -/
def IVec3.divScalar (v : IVec3) (n : Int) : IVec3 :=
  ⟨v.x.tdiv n, v.y.tdiv n, v.z.tdiv n⟩

/-- Componentwise multiplication by a scalar: glam's `IVec3 * i32`. -/
def IVec3.mulScalar (v : IVec3) (n : Int) : IVec3 :=
  ⟨v.x * n, v.y * n, v.z * n⟩

/-- Chunk from `cubizm_chunks/src/chunk/definition.rs`: block array plus
lattice position. -/
structure Chunk where
  blocks : Grid
  position : IVec3

/-- ChunkEntity from `cubizm_chunks/src/chunks/definition.rs`: the chunk
data and its mesh, with the bevy handles resolved to their values (the
scene `Entity` id carries no core semantics and is dropped). -/
structure ChunkEntity where
  chunk : Chunk
  mesh : List Quad

/-- Chunks (the world registry) from
`cubizm_chunks/src/chunks/definition.rs`: `HashMap<IVec3, ChunkEntity>`,
merged with the chunk/mesh asset stores (each position owns its handles). -/
def Chunks := IVec3 → Option ChunkEntity

/-- HashMap::insert — a later write at a key replaces the earlier one. -/
def Chunks.insert (w : Chunks) (p : IVec3) (e : ChunkEntity) : Chunks :=
  fun q => if q = p then some e else w q

/-- Offsets of the six neighbour positions, as computed at the top of
Chunks::get_neighbouring_chunk_mut. -/
def ChunkFace.offset : ChunkFace → IVec3
  | .Front => ⟨0, 0, -1⟩
  | .Back => ⟨0, 0, 1⟩
  | .Top => ⟨0, 1, 0⟩
  | .Bottom => ⟨0, -1, 0⟩
  | .Right => ⟨1, 0, 0⟩
  | .Left => ⟨-1, 0, 0⟩

/-- Chunks::get_neighbouring_chunk_mut from
`cubizm_chunks/src/chunks/definition.rs`. -/
def Chunks.get_neighbouring_chunk_mut (w : Chunks) (position : IVec3)
    (neighbour : ChunkFace) : Option ChunkEntity :=
  let front_position := position + IVec3.mk 0 0 (-1)
  let back_position := position + IVec3.mk 0 0 1
  let top_position := position + IVec3.mk 0 1 0
  let bottom_position := position + IVec3.mk 0 (-1) 0
  let right_position := position + IVec3.mk 1 0 0
  let left_position := position + IVec3.mk (-1) 0 0
  match neighbour with
  | .Top => w top_position
  | .Bottom => w bottom_position
  | .Front => w front_position
  | .Back => w back_position
  | .Right => w right_position
  | .Left => w left_position

/-- Outcome of a world operation: a recoverable `ChunkError::ChunkNotFound`
(carrying the registry state at the early return — the source returns the
error before any mutation), a Rust panic (post-panic state not modelled),
or success with the final state. -/
inductive OpResult where
  | notFound (w : Chunks)
  | panic (cause : PanicCause)
  | ok (w : Chunks)

/-- One row of the four parallel index tables zipped in
create_and_update_geometry: this chunk's boundary (`cOwn`) and padding
(`cOther`) indices toward the face, and the neighbour's boundary (`nOwn`)
and padding (`nOther`) indices toward the opposite face, at one loop
position. -/
structure XPair where
  cOwn : Nat
  cOther : Nat
  nOwn : Nat
  nOther : Nat
deriving DecidableEq, Repr

/-- The zipped index tables of create_and_update_geometry for one face. -/
def facePairs (chunk_face : ChunkFace) : List XPair :=
  let chunk_own_indicies := Chunk.get_own_face_indicies chunk_face
  let chunk_other_indicies := Chunk.get_other_face_indicies chunk_face
  let other_chunk_own_indicies := Chunk.get_own_face_indicies chunk_face.opposite
  let other_chunk_other_indicies := Chunk.get_other_face_indicies chunk_face.opposite
  ((chunk_own_indicies.zip chunk_other_indicies).zip
      (other_chunk_own_indicies.zip other_chunk_other_indicies)).map
    fun pp => ⟨pp.1.1, pp.1.2, pp.2.1, pp.2.2⟩

/-- One iteration of the copy loop in create_and_update_geometry
(`cubizm_chunks/src/chunks/definition.rs` lines 161-175): first this
chunk's padding slot receives the neighbour's boundary value, then the
neighbour's padding slot receives this chunk's boundary value, read from
the chunk state after the first write (the two slots are distinct, claim
C10). -/
def exchangeStep (s : Grid × Grid) (p : XPair) : Grid × Grid :=
  let c := upd s.1 p.cOther (s.2 p.nOwn)
  let n := upd s.2 p.nOther (c p.cOwn)
  (c, n)

/-- Function create_and_update_geometry nested in Chunks::regenerate_chunk_at:
run the copy loop over the zipped tables and regenerate the neighbour's
mesh.  The source calls gen_geometry on the neighbour and overwrites the
neighbour's mesh handle on every loop iteration; only the last write
survives, so the stored mesh is the geometry of the fully copied neighbour,
which is what is modelled (a panic raised by one of the discarded
intermediate regenerations is modelled at the granularity of the loop). -/
def create_and_update_geometry (chunk other_chunk : Grid) (chunk_face : ChunkFace)
    (texture_atlas_layout : TextureAtlasLayout) :
    Except PanicCause (Grid × Grid × List Quad) :=
  let s := (facePairs chunk_face).foldl exchangeStep (chunk, other_chunk)
  match gen_geometry s.2 texture_atlas_layout with
  | .error e => .error e
  | .ok m => .ok (s.1, s.2, m)

/-- One `if let Some(neighbour) = ...` block of Chunks::regenerate_chunk_at:
look the neighbour up, exchange border layers with the evolving local copy
of this chunk's blocks, and store the neighbour's updated blocks and
regenerated mesh. -/
def regenStep (texture_atlas_layout : TextureAtlasLayout) (position : IVec3)
    (s : Except PanicCause (Grid × Chunks)) (f : ChunkFace) :
    Except PanicCause (Grid × Chunks) :=
  match s with
  | .error e => .error e
  | .ok (own, w) =>
    match Chunks.get_neighbouring_chunk_mut w position f with
    | none => .ok (own, w)
    | some nb =>
      match create_and_update_geometry own nb.chunk.blocks f texture_atlas_layout with
      | .error e => .error e
      | .ok (own2, nbg, m) =>
        .ok (own2, w.insert (position + f.offset) ⟨⟨nbg, nb.chunk.position⟩, m⟩)

/-- The order in which Chunks::regenerate_chunk_at processes the six
neighbours. -/
def faceOrder : List ChunkFace := [.Front, .Back, .Top, .Bottom, .Right, .Left]

/-- Chunks::regenerate_chunk_at from
`cubizm_chunks/src/chunks/definition.rs`: look this chunk up (absence is
the recoverable ChunkNotFound), clone its blocks, process the six
neighbours in order against the clone, regenerate this chunk's own mesh
once, re-look the position up, and store the clone and mesh back. -/
def Chunks.regenerate_chunk_at (w : Chunks) (position : IVec3)
    (texture_atlas_layout : TextureAtlasLayout) : OpResult :=
  match w position with
  | none => .notFound w
  | some own_entity =>
    match faceOrder.foldl (regenStep texture_atlas_layout position)
        (.ok (own_entity.chunk.blocks, w)) with
    | .error e => .panic e
    | .ok (own, w1) =>
      match gen_geometry own texture_atlas_layout with
      | .error e => .panic e
      | .ok own_mesh =>
        match w1 position with
        | none => .notFound w1
        | some _ =>
          .ok (w1.insert position ⟨⟨own, own_entity.chunk.position⟩, own_mesh⟩)

/-- Chunks::insert_chunk from `cubizm_chunks/src/chunks/definition.rs`:
generate the mesh of the chunk as given (void borders until a
synchronization pass runs), then register chunk and mesh at the position
(HashMap::insert — an occupied position is overwritten). -/
def Chunks.insert_chunk (w : Chunks) (chunk : Chunk) (position : IVec3)
    (texture_atlas : TextureAtlasLayout) : Except PanicCause Chunks :=
  match gen_geometry chunk.blocks texture_atlas with
  | .error e => .error e
  | .ok mesh => .ok (w.insert position ⟨chunk, mesh⟩)

/-- Chunks::insert_chunk_and_regenerate from
`cubizm_chunks/src/chunks/definition.rs`: insert_chunk, then
regenerate_chunk_at at the same position with `.unwrap()` (a ChunkNotFound
from the inner call would panic). -/
def Chunks.insert_chunk_and_regenerate (w : Chunks) (chunk : Chunk)
    (position : IVec3) (texture_atlas : TextureAtlasLayout) : OpResult :=
  match w.insert_chunk chunk position texture_atlas with
  | .error e => .panic e
  | .ok w1 =>
    match w1.regenerate_chunk_at position texture_atlas with
    | .notFound _ => .panic .UnwrapChunkNotFound
    | .panic e => .panic e
    | .ok w2 => .ok w2

/-- Rust `as u32` cast of an `i32` value: two's-complement reinterpretation
modulo 2³². -/
def u32cast (i : Int) : Nat :=
  (i % (4294967296 : Int)).toNat

/-- ChunkShape::linearize as invoked by Chunks::set_block on the `as u32`
casts of the relative coordinates: `u32` arithmetic, wrapping modulo 2³²
(release-build semantics). -/
def ChunkShape.linearizeWrap (x y z : Nat) : Nat :=
  (x + PADDED * y + PADDED * PADDED * z) % 4294967296

/-- Chunks::set_block from `cubizm_chunks/src/chunks/definition.rs`:
truncating componentwise division by 16 selects the owning chunk, the
(possibly negative) remainder is cast to `u32` and linearized with no
interior offset, the slot at that index is overwritten (indexing past the
blocks array is a Rust panic), and the full synchronization pass runs for
the owning chunk. -/
def Chunks.set_block (w : Chunks) (position : IVec3) (block : Block)
    (texture_atlas_layout : TextureAtlasLayout) : OpResult :=
  let chunk_coords := position.divScalar 16
  let relative_coords := position - chunk_coords.mulScalar 16
  match w (position.divScalar 16) with
  | none => .notFound w
  | some chunk_entity =>
    let index := ChunkShape.linearizeWrap (u32cast relative_coords.x)
      (u32cast relative_coords.y) (u32cast relative_coords.z)
    if index < ChunkShape.SIZE then
      let g := upd chunk_entity.chunk.blocks index block
      let w1 := w.insert chunk_coords ⟨⟨g, chunk_entity.chunk.position⟩, chunk_entity.mesh⟩
      w1.regenerate_chunk_at chunk_coords texture_atlas_layout
    else
      .panic .IndexOutOfBounds

/-! Arithmetic facts about the linearization. -/

theorem linearize_lt {x y z : Nat} (hx : x < PADDED) (hy : y < PADDED)
    (hz : z < PADDED) : ChunkShape.linearize x y z < ChunkShape.SIZE := by
  simp only [ChunkShape.linearize, ChunkShape.SIZE, PADDED, CHUNK_SIZE] at *
  omega

theorem delinearize_linearize {x y z : Nat} (hx : x < PADDED) (hy : y < PADDED)
    (hz : z < PADDED) :
    ChunkShape.delinearize (ChunkShape.linearize x y z) = (x, y, z) := by
  simp only [ChunkShape.delinearize, ChunkShape.linearize, PADDED, CHUNK_SIZE] at *
  refine Prod.ext ?_ (Prod.ext ?_ ?_) <;> simp <;> omega

theorem linearize_inj {x y z x' y' z' : Nat} (hx : x < PADDED) (hy : y < PADDED)
    (hz : z < PADDED) (hx' : x' < PADDED) (hy' : y' < PADDED) (hz' : z' < PADDED)
    (h : ChunkShape.linearize x y z = ChunkShape.linearize x' y' z') :
    x = x' ∧ y = y' ∧ z = z' := by
  have h2 := delinearize_linearize hx hy hz
  rw [h, delinearize_linearize hx' hy' hz'] at h2
  simp only [Prod.mk.injEq] at h2
  exact ⟨h2.1.symm, h2.2.1.symm, h2.2.2.symm⟩

/-! Structure of the face index tables. -/

/-- The common shape of the face-table loops: outer then inner coordinate
over the padded range. -/
def gl {α : Type} (F : Nat → Nat → α) : List α :=
  padRange.flatMap fun a => padRange.map fun b => F a b

theorem mem_gl {α : Type} {F : Nat → Nat → α} {j : α} :
    j ∈ gl F ↔ ∃ a b, a < PADDED ∧ b < PADDED ∧ F a b = j := by
  simp only [gl, padRange, List.mem_flatMap, List.mem_map, List.mem_range]
  constructor
  · rintro ⟨a, ha, b, hb, h⟩
    exact ⟨a, b, ha, hb, h⟩
  · rintro ⟨a, b, ha, hb, h⟩
    exact ⟨a, ha, b, hb, h⟩

theorem gl_zip {α β : Type} (F : Nat → Nat → α) (G : Nat → Nat → β) :
    (gl F).zip (gl G) = gl fun a b => (F a b, G a b) := by
  simp only [gl]
  have key : ∀ l : List Nat,
      ((l.flatMap fun a => padRange.map fun b => F a b).zip
        (l.flatMap fun a => padRange.map fun b => G a b)) =
        l.flatMap fun a => padRange.map fun b => (F a b, G a b) := by
    intro l
    induction l with
    | nil => rfl
    | cons a t ih =>
      simp only [List.flatMap_cons]
      rw [List.zip_append (by simp), ih, List.zip_map' (F a) (G a)]
  exact key padRange

theorem gl_map {α β : Type} (F : Nat → Nat → α) (h : α → β) :
    (gl F).map h = gl fun a b => h (F a b) := by
  simp [gl, List.map_flatMap, List.map_map, Function.comp_def]

theorem gl_nodup {α : Type} {F : Nat → Nat → α}
    (hinj : ∀ a b a' b', a < PADDED → b < PADDED → a' < PADDED → b' < PADDED →
      F a b = F a' b' → a = a' ∧ b = b') : (gl F).Nodup := by
  have hr : padRange.Nodup := List.nodup_range PADDED
  refine List.nodup_flatMap.2 ⟨?_, ?_⟩
  · intro a ha
    refine List.Nodup.map_on ?_ hr
    intro b hb b' hb' h
    exact (hinj a b a b' (by simpa [padRange] using ha) (by simpa [padRange] using hb)
      (by simpa [padRange] using ha) (by simpa [padRange] using hb') h).2
  · refine hr.imp_of_mem ?_
    intro a a' ha ha' hne
    simp only [Function.onFun, List.disjoint_left, List.mem_map]
    rintro v ⟨b, hb, rfl⟩ ⟨b', hb', hEq⟩
    exact hne (hinj a' b' a b (by simpa [padRange] using ha') (by simpa [padRange] using hb')
      (by simpa [padRange] using ha) (by simpa [padRange] using hb) hEq).1.symm


/-- Coordinates written by the own-boundary table loops, by loop position. -/
def ownCoord : ChunkFace → Nat → Nat → Nat × Nat × Nat
  | .Front, a, b => (a, b, 1)
  | .Back, a, b => (a, b, CHUNK_SIZE)
  | .Top, a, b => (a, CHUNK_SIZE, b)
  | .Bottom, a, b => (a, 1, b)
  | .Right, a, b => (CHUNK_SIZE, a, b)
  | .Left, a, b => (1, a, b)

/-- Coordinates written by the padding-shell table loops, by loop position. -/
def otherCoord : ChunkFace → Nat → Nat → Nat × Nat × Nat
  | .Front, a, b => (a, b, 0)
  | .Back, a, b => (a, b, CHUNK_SIZE + 1)
  | .Top, a, b => (a, CHUNK_SIZE + 1, b)
  | .Bottom, a, b => (a, 0, b)
  | .Right, a, b => (CHUNK_SIZE + 1, a, b)
  | .Left, a, b => (0, a, b)

/-- Linearization of a coordinate triple. -/
def linTriple (p : Nat × Nat × Nat) : Nat :=
  ChunkShape.linearize p.1 p.2.1 p.2.2

theorem own_face_eq_gl (f : ChunkFace) :
    Chunk.get_own_face_indicies f = gl fun a b => linTriple (ownCoord f a b) := by
  cases f <;> rfl

theorem other_face_eq_gl (f : ChunkFace) :
    Chunk.get_other_face_indicies f = gl fun a b => linTriple (otherCoord f a b) := by
  cases f <;> rfl

theorem facePairs_eq_gl (f : ChunkFace) :
    facePairs f = gl fun a b =>
      XPair.mk (linTriple (ownCoord f a b)) (linTriple (otherCoord f a b))
        (linTriple (ownCoord f.opposite a b)) (linTriple (otherCoord f.opposite a b)) := by
  unfold facePairs
  dsimp only
  rw [own_face_eq_gl, other_face_eq_gl, own_face_eq_gl, other_face_eq_gl,
    gl_zip, gl_zip, gl_zip, gl_map]

/-! Generic behaviour of the copy loop. -/

theorem upd_self (g : Grid) (i : Nat) : upd g i (g i) = g := by
  funext j
  simp only [upd]
  split
  · next h => rw [h]
  · rfl

theorem upd_same (g : Grid) (i : Nat) (v : Block) : upd g i v i = v := by
  simp [upd]

theorem upd_other (g : Grid) (i j : Nat) (v : Block) (h : j ≠ i) : upd g i v j = g j := by
  simp [upd, h]

theorem exchange_fst_off {ps : List XPair} {c n : Grid} {j : Nat}
    (hj : ∀ p ∈ ps, j ≠ p.cOther) :
    (ps.foldl exchangeStep (c, n)).1 j = c j := by
  induction ps generalizing c n with
  | nil => rfl
  | cons h t ih =>
    rw [List.foldl_cons, ih (fun p hp => hj p (List.mem_cons_of_mem h hp))]
    exact upd_other _ _ _ _ (hj h (List.mem_cons_self h t))

theorem exchange_snd_off {ps : List XPair} {c n : Grid} {j : Nat}
    (hj : ∀ p ∈ ps, j ≠ p.nOther) :
    (ps.foldl exchangeStep (c, n)).2 j = n j := by
  induction ps generalizing c n with
  | nil => rfl
  | cons h t ih =>
    rw [List.foldl_cons, ih (fun p hp => hj p (List.mem_cons_of_mem h hp))]
    exact upd_other _ _ _ _ (hj h (List.mem_cons_self h t))

theorem exchange_mirror {ps : List XPair} {c n : Grid}
    (hndC : (ps.map XPair.cOther).Nodup) (hndN : (ps.map XPair.nOther).Nodup)
    (hCA : ∀ p ∈ ps, ∀ q ∈ ps, p.cOwn ≠ q.cOther)
    (hNX : ∀ p ∈ ps, ∀ q ∈ ps, p.nOwn ≠ q.nOther) :
    ∀ p ∈ ps, (ps.foldl exchangeStep (c, n)).1 p.cOther = n p.nOwn ∧
      (ps.foldl exchangeStep (c, n)).2 p.nOther = c p.cOwn := by
  induction ps generalizing c n with
  | nil => intro p hp; cases hp
  | cons h t ih =>
    simp only [List.map_cons, List.nodup_cons, List.mem_map] at hndC hndN
    have hmemh := List.mem_cons_self h t
    have hfold : List.foldl exchangeStep (c, n) (h :: t)
        = List.foldl exchangeStep (upd c h.cOther (n h.nOwn),
            upd n h.nOther (upd c h.cOther (n h.nOwn) h.cOwn)) t := rfl
    intro p hp
    rcases List.mem_cons.1 hp with rfl | hpt
    · rw [hfold]
      constructor
      · rw [exchange_fst_off (fun q hq hEq => hndC.1 ⟨q, hq, hEq.symm⟩)]
        exact upd_same _ _ _
      · rw [exchange_snd_off (fun q hq hEq => hndN.1 ⟨q, hq, hEq.symm⟩), upd_same]
        exact upd_other _ _ _ _ (hCA p hp p hp)
    · have hmem : ∀ q ∈ t, q ∈ h :: t := fun q hq => List.mem_cons_of_mem h hq
      have hrec := ih (c := upd c h.cOther (n h.nOwn))
        (n := upd n h.nOther (upd c h.cOther (n h.nOwn) h.cOwn)) hndC.2 hndN.2
        (fun q hq r hr => hCA q (hmem q hq) r (hmem r hr))
        (fun q hq r hr => hNX q (hmem q hq) r (hmem r hr)) p hpt
      rw [hfold]
      refine ⟨?_, ?_⟩
      · rw [hrec.1]
        exact upd_other _ _ _ _ (hNX p hp h hmemh)
      · rw [hrec.2]
        exact upd_other _ _ _ _ (hCA p hp h hmemh)

theorem exchange_id {ps : List XPair} {c n : Grid}
    (hM : ∀ p ∈ ps, c p.cOther = n p.nOwn ∧ n p.nOther = c p.cOwn) :
    ps.foldl exchangeStep (c, n) = (c, n) := by
  induction ps with
  | nil => rfl
  | cons h t ih =>
    have h1 : exchangeStep (c, n) h = (c, n) := by
      have hc : upd c h.cOther (n h.nOwn) = c := by
        rw [← (hM h (List.mem_cons_self h t)).1]
        exact upd_self c h.cOther
      show (upd c h.cOther (n h.nOwn),
        upd n h.nOther ((upd c h.cOther (n h.nOwn)) h.cOwn)) = (c, n)
      rw [hc, ← (hM h (List.mem_cons_self h t)).2, upd_self]
    rw [List.foldl_cons, h1]
    exact ih fun p hp => hM p (List.mem_cons_of_mem h hp)

/-! Per-face facts about the tables, via the coordinate patterns. -/

theorem ownCoord_inj (f : ChunkFace) {a b a' b' : Nat} (ha : a < PADDED)
    (hb : b < PADDED) (ha' : a' < PADDED) (hb' : b' < PADDED)
    (h : linTriple (ownCoord f a b) = linTriple (ownCoord f a' b')) :
    a = a' ∧ b = b' := by
  cases f <;>
    (simp only [ownCoord, linTriple, ChunkShape.linearize, PADDED, CHUNK_SIZE] at h ha hb ha' hb' <;>
      omega)

theorem otherCoord_inj (f : ChunkFace) {a b a' b' : Nat} (ha : a < PADDED)
    (hb : b < PADDED) (ha' : a' < PADDED) (hb' : b' < PADDED)
    (h : linTriple (otherCoord f a b) = linTriple (otherCoord f a' b')) :
    a = a' ∧ b = b' := by
  cases f <;>
    (simp only [otherCoord, linTriple, ChunkShape.linearize, PADDED, CHUNK_SIZE] at h ha hb ha' hb' <;>
      omega)

theorem own_ne_other (f : ChunkFace) {a b a' b' : Nat} (ha : a < PADDED)
    (hb : b < PADDED) (ha' : a' < PADDED) (hb' : b' < PADDED) :
    linTriple (ownCoord f a b) ≠ linTriple (otherCoord f a' b') := by
  cases f <;>
    (simp only [ownCoord, otherCoord, linTriple, ChunkShape.linearize, PADDED,
      CHUNK_SIZE] at ha hb ha' hb' ⊢ <;> omega)

theorem facePairs_nodup_cOther (f : ChunkFace) :
    ((facePairs f).map XPair.cOther).Nodup := by
  rw [facePairs_eq_gl, gl_map]
  exact gl_nodup fun a b a' b' ha hb ha' hb' h => otherCoord_inj f ha hb ha' hb' h

theorem facePairs_nodup_nOther (f : ChunkFace) :
    ((facePairs f).map XPair.nOther).Nodup := by
  rw [facePairs_eq_gl, gl_map]
  exact gl_nodup fun a b a' b' ha hb ha' hb' h =>
    otherCoord_inj f.opposite ha hb ha' hb' h

theorem facePairs_cOwn_ne_cOther (f : ChunkFace) :
    ∀ p ∈ facePairs f, ∀ q ∈ facePairs f, p.cOwn ≠ q.cOther := by
  intro p hp q hq
  rw [facePairs_eq_gl] at hp hq
  obtain ⟨a, b, ha, hb, rfl⟩ := mem_gl.1 hp
  obtain ⟨a', b', ha', hb', rfl⟩ := mem_gl.1 hq
  exact own_ne_other f ha hb ha' hb'

theorem facePairs_nOwn_ne_nOther (f : ChunkFace) :
    ∀ p ∈ facePairs f, ∀ q ∈ facePairs f, p.nOwn ≠ q.nOther := by
  intro p hp q hq
  rw [facePairs_eq_gl] at hp hq
  obtain ⟨a, b, ha, hb, rfl⟩ := mem_gl.1 hp
  obtain ⟨a', b', ha', hb', rfl⟩ := mem_gl.1 hq
  exact own_ne_other f.opposite ha hb ha' hb'

/-- The two mirror equalities established by one face's copy loop
(instantiation of the generic fold lemma at a face's tables). -/
theorem face_exchange_mirror (f : ChunkFace) (c n : Grid) :
    ∀ p ∈ facePairs f, ((facePairs f).foldl exchangeStep (c, n)).1 p.cOther = n p.nOwn ∧
      ((facePairs f).foldl exchangeStep (c, n)).2 p.nOther = c p.cOwn :=
  exchange_mirror (facePairs_nodup_cOther f) (facePairs_nodup_nOther f)
    (facePairs_cOwn_ne_cOther f) (facePairs_nOwn_ne_nOther f)

/-- The bidirectional mirror invariant between a chunk's grid and a
neighbour's grid along one face, cell-by-cell over the paired index tables
(spec §3). -/
def MirrorInv (c n : Grid) (f : ChunkFace) : Prop :=
  ∀ p ∈ facePairs f, c p.cOther = n p.nOwn ∧ n p.nOther = c p.cOwn

/-- A face's copy loop is the identity when the mirror invariant already
holds. -/
theorem face_exchange_id {c n : Grid} {f : ChunkFace} (hM : MirrorInv c n f) :
    (facePairs f).foldl exchangeStep (c, n) = (c, n) :=
  exchange_id hM

/-! Registry and neighbour-fold facts. -/

theorem insert_get_same (w : Chunks) (p : IVec3) (e : ChunkEntity) :
    (w.insert p e) p = some e := by
  simp [Chunks.insert]

theorem insert_get_other (w : Chunks) (p : IVec3) (e : ChunkEntity) {q : IVec3}
    (h : q ≠ p) : (w.insert p e) q = w q := by
  simp [Chunks.insert, h]

theorem get_neighbouring_eq (w : Chunks) (position : IVec3) (f : ChunkFace) :
    Chunks.get_neighbouring_chunk_mut w position f = w (position + f.offset) := by
  cases f <;> rfl

theorem IVec3.add_def (a b : IVec3) : a + b = ⟨a.x + b.x, a.y + b.y, a.z + b.z⟩ := rfl

theorem add_offset_ne (P : IVec3) (f : ChunkFace) : P + f.offset ≠ P := by
  obtain ⟨x, y, z⟩ := P
  cases f <;>
    (simp only [ChunkFace.offset, IVec3.add_def, ne_eq, IVec3.mk.injEq]; omega)

theorem add_offset_ne_of_ne (P : IVec3) {f g : ChunkFace} (h : f ≠ g) :
    P + f.offset ≠ P + g.offset := by
  cases f <;> cases g <;> simp_all <;>
    (simp only [ChunkFace.offset, IVec3.add_def, IVec3.mk.injEq] <;> omega)

theorem regenStep_error (atlas : TextureAtlasLayout) (pos : IVec3)
    (e : PanicCause) (f : ChunkFace) : regenStep atlas pos (.error e) f = .error e := rfl

theorem regenFold_error (atlas : TextureAtlasLayout) (pos : IVec3)
    (fs : List ChunkFace) (e : PanicCause) :
    fs.foldl (regenStep atlas pos) (.error e) = .error e := by
  induction fs with
  | nil => rfl
  | cons f t ih => rw [List.foldl_cons, regenStep_error]; exact ih

theorem regenStep_none {w : Chunks} {pos : IVec3} {f : ChunkFace}
    (atlas : TextureAtlasLayout) (own : Grid)
    (h : w (pos + f.offset) = none) :
    regenStep atlas pos (.ok (own, w)) f = .ok (own, w) := by
  simp [regenStep, get_neighbouring_eq, h]

theorem regenFold_far {atlas : TextureAtlasLayout} {pos q : IVec3} :
    ∀ (fs : List ChunkFace) (own : Grid) (w : Chunks),
      (∀ f ∈ fs, q ≠ pos + f.offset) →
      ∀ own' w', fs.foldl (regenStep atlas pos) (.ok (own, w)) = .ok (own', w') →
      w' q = w q := by
  intro fs
  induction fs with
  | nil =>
    intro own w _ own' w' h
    cases h
    rfl
  | cons f t ih =>
    intro own w hq own' w' h
    rw [List.foldl_cons] at h
    have hqf : q ≠ pos + f.offset := hq f (List.mem_cons_self f t)
    have hqt : ∀ g ∈ t, q ≠ pos + g.offset := fun g hg => hq g (List.mem_cons_of_mem f hg)
    rcases hnb : w (pos + f.offset) with _ | nb
    · rw [regenStep_none atlas own hnb] at h
      exact ih own w hqt own' w' h
    · rw [show regenStep atlas pos (.ok (own, w)) f
          = (match create_and_update_geometry own nb.chunk.blocks f atlas with
            | .error e => .error e
            | .ok (own2, nbg, m) =>
              .ok (own2, w.insert (pos + f.offset) ⟨⟨nbg, nb.chunk.position⟩, m⟩)) by
        simp [regenStep, get_neighbouring_eq, hnb]] at h
      rcases hcu : create_and_update_geometry own nb.chunk.blocks f atlas with e | ⟨own2, nbg, m⟩
      · rw [hcu] at h
        rw [regenFold_error] at h
        cases h
      · rw [hcu] at h
        have := ih own2 (w.insert (pos + f.offset) ⟨⟨nbg, nb.chunk.position⟩, m⟩) hqt own' w' h
        rw [this, insert_get_other _ _ _ hqf]

/-! Behaviour of the per-quad emission loop. -/

/-- A block that the emission loop can process without panicking: if it is
a voxel it has a texture with an atlas entry (non-voxels are skipped). -/
def Resolvable (texture_atlas : TextureAtlasLayout) (b : Block) : Prop :=
  b.is_voxel = true →
    ∃ t i, b.voxel_texture = some t ∧ texture_atlas.get_texture_index t = some i

theorem emitQuads_ok_of_resolvable {texture_atlas : TextureAtlasLayout} {g : Grid}
    (l : List ((Nat × Nat × Nat) × FaceDir))
    (h : ∀ pd ∈ l, Resolvable texture_atlas (g (ChunkShape.linearize pd.1.1 pd.1.2.1 pd.1.2.2))) :
    ∃ m, emitQuads texture_atlas g l = .ok m := by
  induction l with
  | nil => exact ⟨[], rfl⟩
  | cons pd t ih =>
    obtain ⟨m, hm⟩ := ih fun q hq => h q (List.mem_cons_of_mem pd hq)
    rcases pd with ⟨p, d⟩
    by_cases hv : (g (ChunkShape.linearize p.1 p.2.1 p.2.2)).is_voxel = true
    · obtain ⟨t', i', ht', hi'⟩ := h (p, d) (List.mem_cons_self _ _) hv
      refine ⟨⟨p.1, p.2.1, p.2.2, d, i'⟩ :: m, ?_⟩
      simp only [emitQuads, hv, if_true, ht', hi', hm]
      rfl
    · refine ⟨m, ?_⟩
      simp only [emitQuads, hv, if_false, Bool.false_eq_true]
      exact hm

theorem emitQuads_error_of_unresolvable {texture_atlas : TextureAtlasLayout} {g : Grid}
    (l : List ((Nat × Nat × Nat) × FaceDir)) (pd : (Nat × Nat × Nat) × FaceDir)
    (hmem : pd ∈ l)
    (hvox : (g (ChunkShape.linearize pd.1.1 pd.1.2.1 pd.1.2.2)).is_voxel = true)
    (hbad : ¬ Resolvable texture_atlas (g (ChunkShape.linearize pd.1.1 pd.1.2.1 pd.1.2.2))) :
    ∃ e, emitQuads texture_atlas g l = .error e := by
  induction l with
  | nil => cases hmem
  | cons q t ih =>
    rcases List.mem_cons.1 hmem with rfl | hmt
    · rcases pd with ⟨p, d⟩
      simp only [emitQuads, hvox, if_true]
      rcases ht : (g (ChunkShape.linearize p.1 p.2.1 p.2.2)).voxel_texture with _ | t'
      · exact ⟨.MissingTexture, rfl⟩
      · rcases hi : texture_atlas.get_texture_index t' with _ | i'
        · refine ⟨.MissingAtlasEntry, ?_⟩
          dsimp only
          rw [hi]
        · exact absurd (fun _ => ⟨t', i', ht, hi⟩) hbad
    · rcases q with ⟨p, d⟩
      by_cases hv : (g (ChunkShape.linearize p.1 p.2.1 p.2.2)).is_voxel = true
      · simp only [emitQuads, hv, if_true]
        rcases ht : (g (ChunkShape.linearize p.1 p.2.1 p.2.2)).voxel_texture with _ | t'
        · exact ⟨.MissingTexture, rfl⟩
        · rcases hi : texture_atlas.get_texture_index t' with _ | i'
          · refine ⟨.MissingAtlasEntry, ?_⟩
            dsimp only
            rw [hi]
          · obtain ⟨e, he⟩ := ih hmt
            refine ⟨e, ?_⟩
            dsimp only
            rw [hi, he]
            rfl
      · simp only [emitQuads, hv, if_false, Bool.false_eq_true]
        exact ih hmt

theorem emitQuads_ok_proj {texture_atlas : TextureAtlasLayout} {g : Grid}
    (l : List ((Nat × Nat × Nat) × FaceDir))
    (hvox : ∀ pd ∈ l, (g (ChunkShape.linearize pd.1.1 pd.1.2.1 pd.1.2.2)).is_voxel = true) :
    ∀ m, emitQuads texture_atlas g l = .ok m →
      m.map (fun q => ((q.x, q.y, q.z), q.dir)) = l := by
  induction l with
  | nil =>
    intro m hm
    cases hm
    rfl
  | cons q t ih =>
    intro m hm
    rcases q with ⟨p, d⟩
    have hv := hvox (p, d) (List.mem_cons_self _ _)
    simp only [emitQuads, hv, if_true] at hm
    rcases ht : (g (ChunkShape.linearize p.1 p.2.1 p.2.2)).voxel_texture with _ | t'
    · rw [ht] at hm; cases hm
    · rw [ht] at hm
      dsimp only at hm
      rcases hi : texture_atlas.get_texture_index t' with _ | i'
      · rw [hi] at hm; cases hm
      · rw [hi] at hm
        rcases hrec : emitQuads texture_atlas g t with e | m'
        · rw [hrec] at hm; cases hm
        · rw [hrec] at hm
          cases hm
          have := ih (fun pd hpd => hvox pd (List.mem_cons_of_mem _ hpd)) m' hrec
          simp only [List.map_cons, this]

theorem mem_faceDirs (d : FaceDir) : d ∈ faceDirs := by
  cases d <;> simp [faceDirs]

theorem mem_coordScan {p : Nat × Nat × Nat} :
    p ∈ coordScan ↔ p.1 < PADDED ∧ p.2.1 < PADDED ∧ p.2.2 < PADDED := by
  obtain ⟨x, y, z⟩ := p
  simp only [coordScan, padRange, List.mem_flatMap, List.mem_map, List.mem_range,
    Prod.mk.injEq]
  constructor
  · rintro ⟨a, ha, b, hb, c, hc, rfl, rfl, rfl⟩
    exact ⟨ha, hb, hc⟩
  · rintro ⟨hx, hy, hz⟩
    exact ⟨x, hx, y, hy, z, hz, rfl, rfl, rfl⟩

theorem mem_visible_block_faces {g : Grid} {p : Nat × Nat × Nat} {d : FaceDir} :
    (p, d) ∈ visible_block_faces g ↔ p ∈ coordScan ∧ faceVisible g p d = true := by
  simp only [visible_block_faces, List.mem_flatMap, List.mem_filterMap]
  constructor
  · rintro ⟨d', _, p', hp', hif⟩
    by_cases hv : faceVisible g p' d' = true
    · rw [if_pos hv] at hif
      simp only [Option.some.injEq, Prod.mk.injEq] at hif
      obtain ⟨rfl, rfl⟩ := hif
      exact ⟨hp', hv⟩
    · rw [if_neg hv] at hif
      cases hif
  · rintro ⟨hp, hv⟩
    exact ⟨d, mem_faceDirs d, p, hp, by rw [if_pos hv]⟩

theorem visible_is_voxel {g : Grid} :
    ∀ pd ∈ visible_block_faces g,
      (g (ChunkShape.linearize pd.1.1 pd.1.2.1 pd.1.2.2)).is_voxel = true := by
  rintro ⟨p, d⟩ hpd
  have hv := (mem_visible_block_faces.1 hpd).2
  simp only [faceVisible, Bool.and_eq_true] at hv
  rcases hb : g (ChunkShape.linearize p.1 p.2.1 p.2.2) with ⟨_, _, _⟩ | ⟨_, _, _⟩
  · rfl
  · rw [hb] at hv
    simp [Block.get_voxel_visibility] at hv

theorem gen_geometry_ok_of_resolvable {g : Grid} {texture_atlas : TextureAtlasLayout}
    (h : ∀ i, Resolvable texture_atlas (g i)) :
    ∃ m, gen_geometry g texture_atlas = .ok m :=
  emitQuads_ok_of_resolvable (visible_block_faces g) fun _ _ => h _

theorem gen_geometry_proj {g : Grid} {texture_atlas : TextureAtlasLayout} {m : List Quad}
    (hm : gen_geometry g texture_atlas = .ok m) :
    m.map (fun q => ((q.x, q.y, q.z), q.dir)) = visible_block_faces g :=
  emitQuads_ok_proj (visible_block_faces g) visible_is_voxel m hm

/-! Counting visible faces. -/

theorem length_filterMap_ite {α β : Type} (l : List α) (c : α → Bool) (F : α → β) :
    (l.filterMap fun a => if c a then some (F a) else none).length = l.countP c := by
  induction l with
  | nil => rfl
  | cons a t ih =>
    cases hc : c a <;>
      simp [List.filterMap_cons, hc, ih, List.countP_cons]

theorem length_visible (g : Grid) :
    (visible_block_faces g).length
      = (faceDirs.map fun d => coordScan.countP fun p => faceVisible g p d).sum := by
  rw [visible_block_faces, List.length_flatMap]
  congr 1
  refine List.map_congr_left fun d _ => ?_
  exact length_filterMap_ite coordScan (fun p => faceVisible g p d) fun p => (p, d)

theorem countP_flatMap {α β : Type} (l : List α) (f : α → List β) (c : β → Bool) :
    (l.flatMap f).countP c = (l.map fun a => (f a).countP c).sum := by
  induction l with
  | nil => rfl
  | cons a t ih => simp [List.flatMap_cons, List.countP_append, ih]

theorem sum_map_ite {α : Type} (l : List α) (c : α → Bool) (k : Nat) :
    (l.map fun a => if c a then k else 0).sum = l.countP c * k := by
  induction l with
  | nil => simp
  | cons a t ih =>
    cases hc : c a <;> simp [hc, ih, List.countP_cons, Nat.add_mul] <;> omega

theorem sum_map_if_const {α : Type} (l : List α) (b : Bool) (f : α → Nat) :
    (l.map fun a => if b then f a else 0).sum = if b then (l.map f).sum else 0 := by
  cases b <;> simp

theorem countP_const_and {α : Type} (l : List α) (b : Bool) (q : α → Bool) :
    (l.countP fun a => b && q a) = if b then l.countP q else 0 := by
  cases b <;> simp

theorem countP_sep (px py pz : Nat → Bool) :
    (coordScan.countP fun p => px p.1 && (py p.2.1 && pz p.2.2))
      = padRange.countP px * (padRange.countP py * padRange.countP pz) := by
  unfold coordScan
  rw [countP_flatMap]
  have inner2 : ∀ x y : Nat,
      ((padRange.map fun z => (x, y, z)).countP fun p => px p.1 && (py p.2.1 && pz p.2.2))
        = if px x then (if py y then padRange.countP pz else 0) else 0 := by
    intro x y
    rw [List.countP_map]
    show (padRange.countP fun z => px x && (py y && pz z)) = _
    cases hx : px x <;> cases hy : py y <;> simp [hx, hy]
  have inner : ∀ x : Nat,
      ((padRange.flatMap fun y => padRange.map fun z => (x, y, z)).countP
        fun p => px p.1 && (py p.2.1 && pz p.2.2))
        = if px x then padRange.countP py * padRange.countP pz else 0 := by
    intro x
    rw [countP_flatMap, List.map_congr_left fun y _ => inner2 x y, sum_map_if_const]
    cases hx : px x
    · simp
    · simp only [if_true]
      exact sum_map_ite padRange py _
  rw [List.map_congr_left fun x _ => inner x, sum_map_ite padRange px _]

/-! Scenario grids of spec §8. -/

/-- An all-void chunk grid. -/
def airGrid : Grid := fun _ => Block.air

/-- An opaque block whose texture id 0 resolves in `atlas0`. -/
def stoneBlock : Block := .Voxel "Stone" (some 0) .Opaque

/-- Membership of a padded coordinate in the 16³ interior (padded
coordinates 1..=16 on every axis). -/
def interior16 (p : Nat × Nat × Nat) : Bool :=
  decide (1 ≤ p.1 ∧ p.1 ≤ CHUNK_SIZE ∧ 1 ≤ p.2.1 ∧ p.2.1 ≤ CHUNK_SIZE
    ∧ 1 ≤ p.2.2 ∧ p.2.2 ≤ CHUNK_SIZE)

/-- The fully-opaque-interior, void-padding scenario grid. -/
def fullOpaqueGrid : Grid := fun i =>
  if interior16 (ChunkShape.delinearize i) then stoneBlock else Block.air

/-- An atlas layout holding exactly texture id 0 at index 0. -/
def atlas0 : TextureAtlasLayout := ⟨fun t => if t = 0 then some 0 else none⟩

def in16 (a : Nat) : Bool := decide (1 ≤ a ∧ a ≤ CHUNK_SIZE)

def eq1 (a : Nat) : Bool := decide (a = 1)

def eq16 (a : Nat) : Bool := decide (a = CHUNK_SIZE)

theorem fullOpaqueGrid_at {x y z : Nat} (hx : x < PADDED) (hy : y < PADDED)
    (hz : z < PADDED) :
    fullOpaqueGrid (ChunkShape.linearize x y z)
      = if interior16 (x, y, z) then stoneBlock else Block.air := by
  rw [fullOpaqueGrid, delinearize_linearize hx hy hz]

theorem fog_vis_negX {x y z : Nat} (hx : x < PADDED) (hy : y < PADDED)
    (hz : z < PADDED) :
    faceVisible fullOpaqueGrid (x, y, z) .NegX = (eq1 x && (in16 y && in16 z)) := by
  by_cases h0 : x = 0
  · subst h0
    simp [faceVisible, neighborCoord, eq1]
  · have hnb : neighborCoord (x, y, z) .NegX = some (x - 1, y, z) := by
      simp [neighborCoord, h0]
    have hx1 : x - 1 < PADDED := by omega
    rw [Bool.eq_iff_iff]
    simp only [faceVisible, hnb, Bool.and_eq_true, fullOpaqueGrid_at hx hy hz,
      fullOpaqueGrid_at hx1 hy hz]
    split_ifs with hA hB <;> first
      | (simp_all [interior16, eq1, in16, stoneBlock, Block.air,
          Block.get_voxel_visibility, PADDED, CHUNK_SIZE]; omega)
      | simp_all [interior16, eq1, in16, stoneBlock, Block.air,
          Block.get_voxel_visibility, PADDED, CHUNK_SIZE]

theorem fog_vis_negY {x y z : Nat} (hx : x < PADDED) (hy : y < PADDED)
    (hz : z < PADDED) :
    faceVisible fullOpaqueGrid (x, y, z) .NegY = (in16 x && (eq1 y && in16 z)) := by
  by_cases h0 : y = 0
  · subst h0
    simp [faceVisible, neighborCoord, eq1]
  · have hnb : neighborCoord (x, y, z) .NegY = some (x, y - 1, z) := by
      simp [neighborCoord, h0]
    have hy1 : y - 1 < PADDED := by omega
    rw [Bool.eq_iff_iff]
    simp only [faceVisible, hnb, Bool.and_eq_true, fullOpaqueGrid_at hx hy hz,
      fullOpaqueGrid_at hx hy1 hz]
    split_ifs with hA hB <;> first
      | (simp_all [interior16, eq1, in16, stoneBlock, Block.air,
          Block.get_voxel_visibility, PADDED, CHUNK_SIZE]; omega)
      | simp_all [interior16, eq1, in16, stoneBlock, Block.air,
          Block.get_voxel_visibility, PADDED, CHUNK_SIZE]

theorem fog_vis_negZ {x y z : Nat} (hx : x < PADDED) (hy : y < PADDED)
    (hz : z < PADDED) :
    faceVisible fullOpaqueGrid (x, y, z) .NegZ = (in16 x && (in16 y && eq1 z)) := by
  by_cases h0 : z = 0
  · subst h0
    simp [faceVisible, neighborCoord, eq1]
  · have hnb : neighborCoord (x, y, z) .NegZ = some (x, y, z - 1) := by
      simp [neighborCoord, h0]
    have hz1 : z - 1 < PADDED := by omega
    rw [Bool.eq_iff_iff]
    simp only [faceVisible, hnb, Bool.and_eq_true, fullOpaqueGrid_at hx hy hz,
      fullOpaqueGrid_at hx hy hz1]
    split_ifs with hA hB <;> first
      | (simp_all [interior16, eq1, in16, stoneBlock, Block.air,
          Block.get_voxel_visibility, PADDED, CHUNK_SIZE]; omega)
      | simp_all [interior16, eq1, in16, stoneBlock, Block.air,
          Block.get_voxel_visibility, PADDED, CHUNK_SIZE]

theorem fog_vis_posX {x y z : Nat} (hx : x < PADDED) (hy : y < PADDED)
    (hz : z < PADDED) :
    faceVisible fullOpaqueGrid (x, y, z) .PosX = (eq16 x && (in16 y && in16 z)) := by
  by_cases h0 : x = PADDED - 1
  · subst h0
    simp [faceVisible, neighborCoord, eq16, PADDED, CHUNK_SIZE]
  · have hnb : neighborCoord (x, y, z) .PosX = some (x + 1, y, z) := by
      simp [neighborCoord, h0]
    have hx1 : x + 1 < PADDED := by
      simp only [PADDED, CHUNK_SIZE] at *
      omega
    rw [Bool.eq_iff_iff]
    simp only [faceVisible, hnb, Bool.and_eq_true, fullOpaqueGrid_at hx hy hz,
      fullOpaqueGrid_at hx1 hy hz]
    split_ifs with hA hB <;> first
      | (simp_all [interior16, eq16, in16, stoneBlock, Block.air,
          Block.get_voxel_visibility, PADDED, CHUNK_SIZE]; omega)
      | simp_all [interior16, eq16, in16, stoneBlock, Block.air,
          Block.get_voxel_visibility, PADDED, CHUNK_SIZE]

theorem fog_vis_posY {x y z : Nat} (hx : x < PADDED) (hy : y < PADDED)
    (hz : z < PADDED) :
    faceVisible fullOpaqueGrid (x, y, z) .PosY = (in16 x && (eq16 y && in16 z)) := by
  by_cases h0 : y = PADDED - 1
  · subst h0
    simp [faceVisible, neighborCoord, eq16, PADDED, CHUNK_SIZE]
  · have hnb : neighborCoord (x, y, z) .PosY = some (x, y + 1, z) := by
      simp [neighborCoord, h0]
    have hy1 : y + 1 < PADDED := by
      simp only [PADDED, CHUNK_SIZE] at *
      omega
    rw [Bool.eq_iff_iff]
    simp only [faceVisible, hnb, Bool.and_eq_true, fullOpaqueGrid_at hx hy hz,
      fullOpaqueGrid_at hx hy1 hz]
    split_ifs with hA hB <;> first
      | (simp_all [interior16, eq16, in16, stoneBlock, Block.air,
          Block.get_voxel_visibility, PADDED, CHUNK_SIZE]; omega)
      | simp_all [interior16, eq16, in16, stoneBlock, Block.air,
          Block.get_voxel_visibility, PADDED, CHUNK_SIZE]

theorem fog_vis_posZ {x y z : Nat} (hx : x < PADDED) (hy : y < PADDED)
    (hz : z < PADDED) :
    faceVisible fullOpaqueGrid (x, y, z) .PosZ = (in16 x && (in16 y && eq16 z)) := by
  by_cases h0 : z = PADDED - 1
  · subst h0
    simp [faceVisible, neighborCoord, eq16, PADDED, CHUNK_SIZE]
  · have hnb : neighborCoord (x, y, z) .PosZ = some (x, y, z + 1) := by
      simp [neighborCoord, h0]
    have hz1 : z + 1 < PADDED := by
      simp only [PADDED, CHUNK_SIZE] at *
      omega
    rw [Bool.eq_iff_iff]
    simp only [faceVisible, hnb, Bool.and_eq_true, fullOpaqueGrid_at hx hy hz,
      fullOpaqueGrid_at hx hy hz1]
    split_ifs with hA hB <;> first
      | (simp_all [interior16, eq16, in16, stoneBlock, Block.air,
          Block.get_voxel_visibility, PADDED, CHUNK_SIZE]; omega)
      | simp_all [interior16, eq16, in16, stoneBlock, Block.air,
          Block.get_voxel_visibility, PADDED, CHUNK_SIZE]

theorem fog_dir_count (d : FaceDir) :
    (coordScan.countP fun p => faceVisible fullOpaqueGrid p d) = 256 := by
  cases d
  case NegX =>
    rw [List.countP_congr (q := fun p => eq1 p.1 && (in16 p.2.1 && in16 p.2.2))
      (fun p hp => by
        obtain ⟨hx, hy, hz⟩ := mem_coordScan.1 hp
        rw [show p = (p.1, p.2.1, p.2.2) from rfl, fog_vis_negX hx hy hz]),
      countP_sep]
    decide
  case NegY =>
    rw [List.countP_congr (q := fun p => in16 p.1 && (eq1 p.2.1 && in16 p.2.2))
      (fun p hp => by
        obtain ⟨hx, hy, hz⟩ := mem_coordScan.1 hp
        rw [show p = (p.1, p.2.1, p.2.2) from rfl, fog_vis_negY hx hy hz]),
      countP_sep]
    decide
  case NegZ =>
    rw [List.countP_congr (q := fun p => in16 p.1 && (in16 p.2.1 && eq1 p.2.2))
      (fun p hp => by
        obtain ⟨hx, hy, hz⟩ := mem_coordScan.1 hp
        rw [show p = (p.1, p.2.1, p.2.2) from rfl, fog_vis_negZ hx hy hz]),
      countP_sep]
    decide
  case PosX =>
    rw [List.countP_congr (q := fun p => eq16 p.1 && (in16 p.2.1 && in16 p.2.2))
      (fun p hp => by
        obtain ⟨hx, hy, hz⟩ := mem_coordScan.1 hp
        rw [show p = (p.1, p.2.1, p.2.2) from rfl, fog_vis_posX hx hy hz]),
      countP_sep]
    decide
  case PosY =>
    rw [List.countP_congr (q := fun p => in16 p.1 && (eq16 p.2.1 && in16 p.2.2))
      (fun p hp => by
        obtain ⟨hx, hy, hz⟩ := mem_coordScan.1 hp
        rw [show p = (p.1, p.2.1, p.2.2) from rfl, fog_vis_posY hx hy hz]),
      countP_sep]
    decide
  case PosZ =>
    rw [List.countP_congr (q := fun p => in16 p.1 && (in16 p.2.1 && eq16 p.2.2))
      (fun p hp => by
        obtain ⟨hx, hy, hz⟩ := mem_coordScan.1 hp
        rw [show p = (p.1, p.2.1, p.2.2) from rfl, fog_vis_posZ hx hy hz]),
      countP_sep]
    decide

theorem fog_visible_length : (visible_block_faces fullOpaqueGrid).length = 1536 := by
  rw [length_visible, List.map_congr_left fun d _ => fog_dir_count d]
  simp [faceDirs]

theorem visible_nonEmpty {g : Grid} :
    ∀ pd ∈ visible_block_faces g,
      (g (ChunkShape.linearize pd.1.1 pd.1.2.1 pd.1.2.2)).get_voxel_visibility
        ≠ .Empty := by
  rintro ⟨p, d⟩ hpd
  have hv := (mem_visible_block_faces.1 hpd).2
  simp only [faceVisible, Bool.and_eq_true] at hv
  intro hvis
  rw [hvis] at hv
  simp at hv

theorem gen_geometry_ok_of_cells {g : Grid} {texture_atlas : TextureAtlasLayout}
    (h : ∀ i, g i = Block.air ∨ Resolvable texture_atlas (g i)) :
    ∃ m, gen_geometry g texture_atlas = .ok m := by
  apply emitQuads_ok_of_resolvable
  intro pd hpd
  rcases h (ChunkShape.linearize pd.1.1 pd.1.2.1 pd.1.2.2) with ha | hr
  · have := visible_nonEmpty pd hpd
    rw [ha] at this
    simp [Block.air, Block.get_voxel_visibility] at this
  · exact hr

theorem airGrid_visible : visible_block_faces airGrid = [] := by
  have h : ∀ p d, faceVisible airGrid p d = false := by
    intro p d
    simp [faceVisible, airGrid, Block.air, Block.get_voxel_visibility]
  simp [visible_block_faces, h]

theorem gen_geometry_airGrid (texture_atlas : TextureAtlasLayout) :
    gen_geometry airGrid texture_atlas = .ok [] := by
  rw [gen_geometry, airGrid_visible]
  rfl

theorem upd_cells {P : Block → Prop} {g : Grid} {i : Nat} {v : Block}
    (hg : ∀ j, P (g j)) (hv : P v) : ∀ j, P (upd g i v j) := by
  intro j
  rw [upd]
  split
  · exact hv
  · exact hg j

theorem exchange_cells {P : Block → Prop} (ps : List XPair) {c n : Grid}
    (hc : ∀ j, P (c j)) (hn : ∀ j, P (n j)) :
    (∀ j, P ((ps.foldl exchangeStep (c, n)).1 j))
      ∧ (∀ j, P ((ps.foldl exchangeStep (c, n)).2 j)) := by
  induction ps generalizing c n with
  | nil => exact ⟨hc, hn⟩
  | cons h t ih =>
    have hc1 : ∀ j, P (upd c h.cOther (n h.nOwn) j) := upd_cells hc (hn _)
    have hn1 : ∀ j, P (upd n h.nOther (upd c h.cOther (n h.nOwn) h.cOwn) j) :=
      upd_cells hn (hc1 _)
    exact ih hc1 hn1

/-- Two linear indices whose delinearizations agree on the two coordinates
perpendicular to a face's axis and differ by exactly one step along the
face's axis. -/
def oneStepAlong (f : ChunkFace) (a b : Nat) : Prop :=
  match f with
  | .Front | .Back =>
    (ChunkShape.delinearize a).1 = (ChunkShape.delinearize b).1
      ∧ (ChunkShape.delinearize a).2.1 = (ChunkShape.delinearize b).2.1
      ∧ ((ChunkShape.delinearize a).2.2 = (ChunkShape.delinearize b).2.2 + 1
        ∨ (ChunkShape.delinearize b).2.2 = (ChunkShape.delinearize a).2.2 + 1)
  | .Top | .Bottom =>
    (ChunkShape.delinearize a).1 = (ChunkShape.delinearize b).1
      ∧ (ChunkShape.delinearize a).2.2 = (ChunkShape.delinearize b).2.2
      ∧ ((ChunkShape.delinearize a).2.1 = (ChunkShape.delinearize b).2.1 + 1
        ∨ (ChunkShape.delinearize b).2.1 = (ChunkShape.delinearize a).2.1 + 1)
  | .Right | .Left =>
    (ChunkShape.delinearize a).2.1 = (ChunkShape.delinearize b).2.1
      ∧ (ChunkShape.delinearize a).2.2 = (ChunkShape.delinearize b).2.2
      ∧ ((ChunkShape.delinearize a).1 = (ChunkShape.delinearize b).1 + 1
        ∨ (ChunkShape.delinearize b).1 = (ChunkShape.delinearize a).1 + 1)

/-- Claim C10: for every face, every entry of `get_own_face_indicies` and of
`get_other_face_indicies` is a valid index into the padded 18³ array
(strictly below 5832), and entries at the same list position delinearize to
coordinates that differ only by one step along the face's axis — a
boundary-layer cell paired with its adjacent padding cell — so the
border-exchange loop's direct indexing never goes out of bounds. -/
theorem claim_c10_face_tables_in_bounds_and_paired :
    ∀ f : ChunkFace,
      ∀ pr ∈ (Chunk.get_own_face_indicies f).zip (Chunk.get_other_face_indicies f),
        pr.1 < ChunkShape.SIZE ∧ pr.2 < ChunkShape.SIZE ∧ oneStepAlong f pr.1 pr.2 := by
  intro f pr hpr
  rw [own_face_eq_gl, other_face_eq_gl, gl_zip] at hpr
  obtain ⟨a, b, ha, hb, rfl⟩ := mem_gl.1 hpr
  have h0 : (0 : Nat) < PADDED := by simp [PADDED]
  have h1 : (1 : Nat) < PADDED := by simp [PADDED]
  have h16 : CHUNK_SIZE < PADDED := by simp [PADDED]
  have h17 : CHUNK_SIZE + 1 < PADDED := by simp [PADDED]
  cases f <;> (
    simp only [ownCoord, otherCoord, linTriple, oneStepAlong]
    refine ⟨linearize_lt (by assumption) (by assumption) (by assumption),
      linearize_lt (by assumption) (by assumption) (by assumption), ?_⟩
    rw [delinearize_linearize (by assumption) (by assumption) (by assumption),
      delinearize_linearize (by assumption) (by assumption) (by assumption)]
    simp [CHUNK_SIZE])

/-! Unfolding the synchronization pass at a registered position. -/

theorem regenerate_chunk_at_eq (w : Chunks) (pos : IVec3)
    (atlas : TextureAtlasLayout) (ent : ChunkEntity) (h : w pos = some ent) :
    Chunks.regenerate_chunk_at w pos atlas =
      match faceOrder.foldl (regenStep atlas pos) (.ok (ent.chunk.blocks, w)) with
      | .error e => .panic e
      | .ok (own, w1) =>
        match gen_geometry own atlas with
        | .error e => .panic e
        | .ok own_mesh =>
          match w1 pos with
          | none => .notFound w1
          | some _ => .ok (w1.insert pos ⟨⟨own, ent.chunk.position⟩, own_mesh⟩) := by
  unfold Chunks.regenerate_chunk_at
  rw [h]

theorem regen_not_notFound {w : Chunks} {pos : IVec3} {atlas : TextureAtlasLayout}
    {ent : ChunkEntity} (h : w pos = some ent) :
    ∀ w2, Chunks.regenerate_chunk_at w pos atlas ≠ .notFound w2 := by
  intro w2
  rw [regenerate_chunk_at_eq w pos atlas ent h]
  rcases hfold : faceOrder.foldl (regenStep atlas pos) (.ok (ent.chunk.blocks, w))
    with e | ⟨own, w1⟩
  · simp [hfold]
  · have hp : w1 pos = w pos :=
      regenFold_far faceOrder ent.chunk.blocks w
        (fun f _ => (add_offset_ne pos f).symm) own w1 hfold
    rcases hgen : gen_geometry own atlas with e | m
    · simp [hfold, hgen]
    · simp [hfold, hgen, hp, h]

/-- Claim C6: when no chunk is registered at the target position,
regenerate_chunk_at and set_block return the recoverable ChunkNotFound
error (no panic), and the registry, every chunk's voxel data and every
stored mesh are exactly as before the call (the error carries the
unmodified state, as the source errors before its first mutation). -/
theorem claim_c6_not_found_is_recoverable :
    ∀ (w : Chunks) (pos : IVec3) (b : Block) (atlas : TextureAtlasLayout),
      (w pos = none → Chunks.regenerate_chunk_at w pos atlas = .notFound w)
      ∧ (w (pos.divScalar 16) = none →
          Chunks.set_block w pos b atlas = .notFound w) := by
  intro w pos b atlas
  constructor
  · intro h
    unfold Chunks.regenerate_chunk_at
    rw [h]
  · intro h
    unfold Chunks.set_block
    rw [h]

/-- Witness for C6 on the empty registry. -/
theorem claim_c6_witness :
    ((fun _ => none : Chunks) (IVec3.mk 0 0 0) = none →
      Chunks.regenerate_chunk_at (fun _ => none) (IVec3.mk 0 0 0) atlas0
        = .notFound (fun _ => none))
    ∧ (((fun _ => none : Chunks) ((IVec3.mk 0 0 0).divScalar 16) = none) →
      Chunks.set_block (fun _ => none) (IVec3.mk 0 0 0) stoneBlock atlas0
        = .notFound (fun _ => none)) :=
  claim_c6_not_found_is_recoverable (fun _ => none) (IVec3.mk 0 0 0) stoneBlock atlas0

/-- Claim C8: inserting at an already-occupied position overwrites the
existing entry (last write wins): afterwards the registry maps the position
to the newly inserted chunk and its freshly generated mesh, the previous
entry is no longer reachable through the registry, and entries at all
other positions are unchanged. -/
theorem claim_c8_insert_overwrites :
    ∀ (w : Chunks) (c : Chunk) (p : IVec3) (atlas : TextureAtlasLayout)
      (e0 : ChunkEntity) (w' : Chunks),
      w p = some e0 →
      Chunks.insert_chunk w c p atlas = .ok w' →
      (∃ m, gen_geometry c.blocks atlas = .ok m ∧ w' p = some ⟨c, m⟩)
        ∧ ∀ q, q ≠ p → w' q = w q := by
  intro w c p atlas e0 w' _ hins
  rw [Chunks.insert_chunk] at hins
  rcases hg : gen_geometry c.blocks atlas with e | m
  · rw [hg] at hins
    cases hins
  · rw [hg] at hins
    cases hins
    exact ⟨⟨m, rfl, insert_get_same w p ⟨c, m⟩⟩,
      fun q hq => insert_get_other w p ⟨c, m⟩ hq⟩

/-- An air-filled chunk used by the concrete witnesses. -/
def airChunk : Chunk := ⟨airGrid, ⟨0, 0, 0⟩⟩

/-- A one-entry registry holding a stone-oblivious entity at the origin. -/
def occupiedWorld : Chunks :=
  Chunks.insert (fun _ => none) (IVec3.mk 0 0 0) ⟨⟨fun _ => stoneBlock, ⟨0, 0, 0⟩⟩, []⟩

/-- Witness for C8: inserting an air chunk over the occupied origin. -/
theorem claim_c8_witness :
    ∃ w', Chunks.insert_chunk occupiedWorld airChunk (IVec3.mk 0 0 0) atlas0 = .ok w'
      ∧ ((∃ m, gen_geometry airChunk.blocks atlas0 = .ok m
            ∧ w' (IVec3.mk 0 0 0) = some ⟨airChunk, m⟩)
        ∧ ∀ q, q ≠ IVec3.mk 0 0 0 → w' q = occupiedWorld q) := by
  have hins : Chunks.insert_chunk occupiedWorld airChunk (IVec3.mk 0 0 0) atlas0
      = .ok (Chunks.insert occupiedWorld (IVec3.mk 0 0 0) ⟨airChunk, []⟩) := by
    rw [Chunks.insert_chunk]
    show (match gen_geometry airChunk.blocks atlas0 with
      | .error e => (.error e : Except PanicCause Chunks)
      | .ok mesh => .ok (Chunks.insert occupiedWorld (IVec3.mk 0 0 0) ⟨airChunk, mesh⟩)) = _
    rw [show gen_geometry airChunk.blocks atlas0 = .ok [] from gen_geometry_airGrid atlas0]
  exact ⟨_, hins,
    claim_c8_insert_overwrites occupiedWorld airChunk (IVec3.mk 0 0 0) atlas0
      ⟨⟨fun _ => stoneBlock, ⟨0, 0, 0⟩⟩, []⟩ _ rfl hins⟩

/-- Claim C9: insert_chunk_and_regenerate behaves exactly as insert_chunk
followed by regenerate_chunk_at at the same position, and because
registration precedes the synchronization's registry lookups, the inner
synchronization never takes the ChunkNotFound branch (the `.unwrap()`
cannot fire) — for every input registry, chunk and position. -/
theorem claim_c9_composite_insert :
    ∀ (w : Chunks) (c : Chunk) (p : IVec3) (atlas : TextureAtlasLayout) (w1 : Chunks),
      Chunks.insert_chunk w c p atlas = .ok w1 →
      (∀ w2, Chunks.regenerate_chunk_at w1 p atlas ≠ .notFound w2)
        ∧ Chunks.insert_chunk_and_regenerate w c p atlas
          = Chunks.regenerate_chunk_at w1 p atlas := by
  intro w c p atlas w1 hins
  have hcopy := hins
  rw [Chunks.insert_chunk] at hcopy
  rcases hg : gen_geometry c.blocks atlas with e | m
  · rw [hg] at hcopy
    cases hcopy
  · rw [hg] at hcopy
    cases hcopy
    have hreg : (Chunks.insert w p ⟨c, m⟩) p = some ⟨c, m⟩ := insert_get_same w p ⟨c, m⟩
    refine ⟨regen_not_notFound hreg, ?_⟩
    rw [Chunks.insert_chunk_and_regenerate, hins]
    rcases hr : Chunks.regenerate_chunk_at (Chunks.insert w p ⟨c, m⟩) p atlas
      with w2 | e | w2
    · exact absurd hr (regen_not_notFound hreg w2)
    · simp [hr]
    · simp [hr]

/-- Witness for C9: inserting an air chunk into the empty registry. -/
theorem claim_c9_witness :
    ∃ w1, Chunks.insert_chunk (fun _ => none) airChunk (IVec3.mk 0 0 0) atlas0 = .ok w1
      ∧ ((∀ w2, Chunks.regenerate_chunk_at w1 (IVec3.mk 0 0 0) atlas0 ≠ .notFound w2)
        ∧ Chunks.insert_chunk_and_regenerate (fun _ => none) airChunk (IVec3.mk 0 0 0) atlas0
          = Chunks.regenerate_chunk_at w1 (IVec3.mk 0 0 0) atlas0) := by
  have hins : Chunks.insert_chunk (fun _ => none) airChunk (IVec3.mk 0 0 0) atlas0
      = .ok (Chunks.insert (fun _ => none) (IVec3.mk 0 0 0) ⟨airChunk, []⟩) := by
    rw [Chunks.insert_chunk]
    show (match gen_geometry airChunk.blocks atlas0 with
      | .error e => (.error e : Except PanicCause Chunks)
      | .ok mesh => .ok (Chunks.insert (fun _ => none) (IVec3.mk 0 0 0) ⟨airChunk, mesh⟩)) = _
    rw [show gen_geometry airChunk.blocks atlas0 = .ok [] from gen_geometry_airGrid atlas0]
  exact ⟨_, hins,
    claim_c9_composite_insert (fun _ => none) airChunk (IVec3.mk 0 0 0) atlas0 _ hins⟩

/-- Claim C5: a successful regenerate_chunk_at(P) modifies at most the
chunk at P and the chunks registered at the six face-adjacent positions:
the entry (voxel data and mesh) of every other position is exactly
unchanged — strictly one-hop, no further propagation. -/
theorem claim_c5_regenerate_one_hop :
    ∀ (w : Chunks) (P : IVec3) (atlas : TextureAtlasLayout) (w' : Chunks) (q : IVec3),
      Chunks.regenerate_chunk_at w P atlas = .ok w' →
      q ≠ P → (∀ f : ChunkFace, q ≠ P + f.offset) →
      w' q = w q := by
  intro w P atlas w' q hreg hqP hqf
  rcases hw : w P with _ | ent
  · rw [Chunks.regenerate_chunk_at, hw] at hreg
    cases hreg
  · rw [regenerate_chunk_at_eq w P atlas ent hw] at hreg
    rcases hfold : faceOrder.foldl (regenStep atlas P) (.ok (ent.chunk.blocks, w))
      with e | ⟨own, w1⟩
    · rw [hfold] at hreg
      cases hreg
    · rw [hfold] at hreg
      dsimp only at hreg
      have hq1 : w1 q = w q :=
        regenFold_far faceOrder ent.chunk.blocks w (fun f _ => hqf f) own w1 hfold
      rcases hgen : gen_geometry own atlas with e | m
      · rw [hgen] at hreg
        cases hreg
      · rw [hgen] at hreg
        have hP1 : w1 P = w P :=
          regenFold_far faceOrder ent.chunk.blocks w
            (fun f _ => (add_offset_ne P f).symm) own w1 hfold
        rw [hP1, hw] at hreg
        cases hreg
        rw [insert_get_other _ _ _ hqP]
        exact hq1

/-- A two-entry registry: an air chunk at the origin and a distant chunk at
(5,5,5), used to witness the frame property. -/
def farWorld : Chunks :=
  Chunks.insert
    (Chunks.insert (fun _ => none) (IVec3.mk 5 5 5) ⟨⟨fun _ => stoneBlock, ⟨5, 5, 5⟩⟩, []⟩)
    (IVec3.mk 0 0 0) ⟨airChunk, []⟩

theorem farWorld_regen :
    Chunks.regenerate_chunk_at farWorld (IVec3.mk 0 0 0) atlas0
      = .ok (farWorld.insert (IVec3.mk 0 0 0) ⟨⟨airGrid, ⟨0, 0, 0⟩⟩, []⟩) := by
  rw [regenerate_chunk_at_eq farWorld (IVec3.mk 0 0 0) atlas0 ⟨airChunk, []⟩ rfl]
  have hfold : faceOrder.foldl (regenStep atlas0 (IVec3.mk 0 0 0))
      (.ok (airChunk.blocks, farWorld)) = .ok (airChunk.blocks, farWorld) := by
    show List.foldl _ _ [ChunkFace.Front, .Back, .Top, .Bottom, .Right, .Left] = _
    rw [List.foldl_cons, regenStep_none atlas0 airChunk.blocks rfl,
      List.foldl_cons, regenStep_none atlas0 airChunk.blocks rfl,
      List.foldl_cons, regenStep_none atlas0 airChunk.blocks rfl,
      List.foldl_cons, regenStep_none atlas0 airChunk.blocks rfl,
      List.foldl_cons, regenStep_none atlas0 airChunk.blocks rfl,
      List.foldl_cons, regenStep_none atlas0 airChunk.blocks rfl]
    rfl
  rw [hfold]
  show (match gen_geometry airChunk.blocks atlas0 with
    | .error e => OpResult.panic e
    | .ok own_mesh =>
      match farWorld (IVec3.mk 0 0 0) with
      | none => OpResult.notFound farWorld
      | some _ => .ok (farWorld.insert (IVec3.mk 0 0 0)
          ⟨⟨airChunk.blocks, airChunk.position⟩, own_mesh⟩)) = _
  rw [show gen_geometry airChunk.blocks atlas0 = .ok [] from gen_geometry_airGrid atlas0]
  rfl

/-- Witness for C5: the distant entry at (5,5,5) is untouched. -/
theorem claim_c5_witness :
    ∃ w', Chunks.regenerate_chunk_at farWorld (IVec3.mk 0 0 0) atlas0 = .ok w'
      ∧ w' (IVec3.mk 5 5 5) = farWorld (IVec3.mk 5 5 5) :=
  ⟨_, farWorld_regen,
    claim_c5_regenerate_one_hop farWorld (IVec3.mk 0 0 0) atlas0 _ (IVec3.mk 5 5 5)
      farWorld_regen (by decide) (fun f => by cases f <;> decide)⟩

theorem coordScan_nodup : coordScan.Nodup := by
  rw [coordScan]
  have hr : padRange.Nodup := List.nodup_range PADDED
  refine List.nodup_flatMap.2 ⟨?_, ?_⟩
  · intro x _
    refine List.nodup_flatMap.2 ⟨?_, ?_⟩
    · intro y _
      refine List.Nodup.map_on ?_ hr
      intro z _ z' _ h
      simpa using congrArg (fun q => q.2.2) h
    · refine hr.imp_of_mem ?_
      intro y y' _ _ hne
      simp only [Function.onFun, List.disjoint_left, List.mem_map]
      rintro v ⟨z, _, rfl⟩ ⟨z', _, hEq⟩
      have h2 := congrArg (fun q => q.2.1) hEq
      simp at h2
      exact hne h2.symm
  · refine hr.imp_of_mem ?_
    intro x x' _ _ hne
    simp only [Function.onFun, List.disjoint_left, List.mem_flatMap, List.mem_map]
    rintro v ⟨y, _, z, _, rfl⟩ ⟨y', _, z', _, hEq⟩
    have h2 := congrArg (fun q => q.1) hEq
    simp at h2
    exact hne h2.symm

theorem visible_nodup (g : Grid) : (visible_block_faces g).Nodup := by
  rw [visible_block_faces]
  refine List.nodup_flatMap.2 ⟨?_, ?_⟩
  · intro d _
    refine List.Nodup.filterMap ?_ coordScan_nodup
    intro p p' v hv hv'
    by_cases hp : faceVisible g p d = true
    · rw [if_pos hp] at hv
      by_cases hp' : faceVisible g p' d = true
      · rw [if_pos hp'] at hv'
        cases hv
        cases hv'
        rfl
      · rw [if_neg hp'] at hv'
        cases hv'
    · rw [if_neg hp] at hv
      cases hv
  · have : faceDirs.Nodup := by decide
    refine this.imp_of_mem ?_
    intro d d' _ _ hne
    simp only [Function.onFun, List.disjoint_left, List.mem_filterMap]
    rintro v ⟨p, _, hv⟩ ⟨p', _, hv'⟩
    by_cases hp : faceVisible g p d = true
    · rw [if_pos hp] at hv
      by_cases hp' : faceVisible g p' d' = true
      · rw [if_pos hp'] at hv'
        cases hv
        cases hv'
        exact hne rfl
      · rw [if_neg hp'] at hv'
        cases hv'
    · rw [if_neg hp] at hv
      cases hv

theorem fullOpaqueGrid_cells :
    ∀ i, fullOpaqueGrid i = Block.air ∨ Resolvable atlas0 (fullOpaqueGrid i) := by
  intro i
  rw [fullOpaqueGrid]
  split
  · right
    intro _
    exact ⟨0, 0, rfl, rfl⟩
  · left
    rfl

/-- Claim C3: gen_geometry emits exactly one unit quad per (voxel,
direction) pair in which the voxel is non-empty and its in-range immediate
neighbour in that direction is Empty, and no other quads: a returned mesh's
quads project bijectively onto the visible-face list (which holds each pair
at most once).  In particular the all-void grid yields zero quads for every
atlas, and the fully opaque 16³ interior with void padding yields exactly
16·16·6 = 1536 quads (so no faces between adjacent opaque interior
voxels). -/
theorem claim_c3_gen_geometry_one_quad_per_visible_face :
    (∀ (g : Grid) (atlas : TextureAtlasLayout) (m : List Quad),
      gen_geometry g atlas = .ok m →
        m.map (fun q => ((q.x, q.y, q.z), q.dir)) = visible_block_faces g
          ∧ (visible_block_faces g).Nodup
          ∧ ∀ p d, ((p, d) ∈ visible_block_faces g
            ↔ (p.1 < PADDED ∧ p.2.1 < PADDED ∧ p.2.2 < PADDED)
              ∧ faceVisible g p d = true))
    ∧ (∀ atlas, gen_geometry airGrid atlas = .ok [])
    ∧ (∃ m, gen_geometry fullOpaqueGrid atlas0 = .ok m ∧ m.length = 1536) := by
  refine ⟨?_, gen_geometry_airGrid, ?_⟩
  · intro g atlas m hm
    refine ⟨gen_geometry_proj hm, visible_nodup g, ?_⟩
    intro p d
    rw [mem_visible_block_faces, mem_coordScan]
  · obtain ⟨m, hm⟩ := gen_geometry_ok_of_cells fullOpaqueGrid_cells
    refine ⟨m, hm, ?_⟩
    have := congrArg List.length (gen_geometry_proj hm)
    rw [List.length_map, fog_visible_length] at this
    exact this

/-- Witness for C3 at the fully opaque scenario grid. -/
theorem claim_c3_witness :
    ∃ m, gen_geometry fullOpaqueGrid atlas0 = .ok m
      ∧ (m.map (fun q => ((q.x, q.y, q.z), q.dir)) = visible_block_faces fullOpaqueGrid
        ∧ (visible_block_faces fullOpaqueGrid).Nodup
        ∧ ∀ p d, ((p, d) ∈ visible_block_faces fullOpaqueGrid
          ↔ (p.1 < PADDED ∧ p.2.1 < PADDED ∧ p.2.2 < PADDED)
            ∧ faceVisible fullOpaqueGrid p d = true)) := by
  obtain ⟨m, hm⟩ := gen_geometry_ok_of_cells fullOpaqueGrid_cells
  exact ⟨m, hm,
    claim_c3_gen_geometry_one_quad_per_visible_face.1 fullOpaqueGrid atlas0 m hm⟩

/-- Claim C7: for every grid containing a visible face whose voxel's
texture reference is absent or has no atlas entry, gen_geometry aborts the
entire generation call (the source panics on the unresolved `expect`); it
never returns a mesh. -/
theorem claim_c7_unresolved_texture_aborts :
    ∀ (g : Grid) (atlas : TextureAtlasLayout) (p : Nat × Nat × Nat) (d : FaceDir),
      (p, d) ∈ visible_block_faces g →
      ((g (ChunkShape.linearize p.1 p.2.1 p.2.2)).voxel_texture = none
        ∨ ∃ t, (g (ChunkShape.linearize p.1 p.2.1 p.2.2)).voxel_texture = some t
          ∧ atlas.get_texture_index t = none) →
      ∃ e, gen_geometry g atlas = .error e := by
  intro g atlas p d hmem hbad
  refine emitQuads_error_of_unresolvable (visible_block_faces g) (p, d) hmem
    (visible_is_voxel (p, d) hmem) ?_
  rintro hres
  obtain ⟨t', i', ht', hi'⟩ := hres (visible_is_voxel (p, d) hmem)
  rcases hbad with hnone | ⟨t, hsome, hidx⟩
  · rw [hnone] at ht'
    cases ht'
  · rw [hsome] at ht'
    cases ht'
    rw [hidx] at hi'
    cases hi'

/-- A grid with a single textureless opaque voxel at (5,5,5). -/
def badGrid : Grid := fun i =>
  if i = ChunkShape.linearize 5 5 5 then Block.Voxel "Bad" none .Opaque else Block.air

/-- Witness for C7 on `badGrid`. -/
theorem claim_c7_witness :
    (((5, 5, 5) : Nat × Nat × Nat), FaceDir.NegX) ∈ visible_block_faces badGrid
      ∧ (badGrid (ChunkShape.linearize 5 5 5)).voxel_texture = none
      ∧ ∃ e, gen_geometry badGrid atlas0 = .error e := by
  have hmem : (((5, 5, 5) : Nat × Nat × Nat), FaceDir.NegX) ∈ visible_block_faces badGrid := by
    rw [mem_visible_block_faces, mem_coordScan]
    refine ⟨⟨by decide, by decide, by decide⟩, by decide⟩
  exact ⟨hmem, rfl,
    claim_c7_unresolved_texture_aborts badGrid atlas0 (5, 5, 5) .NegX hmem (Or.inl rfl)⟩

/-- A one-chunk registry: an air chunk registered at the origin. -/
def w0set : Chunks := Chunks.insert (fun _ => none) (IVec3.mk 0 0 0) ⟨airChunk, []⟩

theorem upd_airGrid_cells :
    ∀ i, (upd airGrid 0 stoneBlock) i = Block.air
      ∨ Resolvable atlas0 ((upd airGrid 0 stoneBlock) i) := by
  intro i
  rw [upd]
  split
  · right
    intro _
    exact ⟨0, 0, rfl, rfl⟩
  · left
    rfl

/-- Claim C2 (code bug): evaluating the embedded set_block at world
position (0,0,0) on a registry holding an air chunk at the origin.  The
operation succeeds, but it writes the block at padded linear index 0 — the
ghost cell (0,0,0) of the derived padding shell — while the interior cell
(1,1,1) that corresponds to local remainder (0,0,0) stays untouched
(set_block linearizes the raw remainder without the +1 interior offset).
And at world position (0,-1,0) the `as u32` cast of the negative remainder
wraps, the computed index 4294967278 overflows the 5832-slot array, and
the indexing panics. -/
theorem claim_c2_set_block_within_wrong_cell :
    (∃ w', Chunks.set_block w0set (IVec3.mk 0 0 0) stoneBlock atlas0 = .ok w'
      ∧ ∀ e, w' (IVec3.mk 0 0 0) = some e →
          e.chunk.blocks (ChunkShape.linearize 0 0 0) = stoneBlock
            ∧ e.chunk.blocks (ChunkShape.linearize 1 1 1) = Block.air)
    ∧ Chunks.set_block w0set (IVec3.mk 0 (-1) 0) stoneBlock atlas0
        = .panic .IndexOutOfBounds := by
  constructor
  · have hsb : Chunks.set_block w0set (IVec3.mk 0 0 0) stoneBlock atlas0
        = Chunks.regenerate_chunk_at
          (Chunks.insert w0set (IVec3.mk 0 0 0)
            ⟨⟨upd airGrid 0 stoneBlock, airChunk.position⟩, []⟩)
          (IVec3.mk 0 0 0) atlas0 := rfl
    obtain ⟨m, hm⟩ := gen_geometry_ok_of_cells upd_airGrid_cells
    have hreg : Chunks.regenerate_chunk_at
        (Chunks.insert w0set (IVec3.mk 0 0 0)
          ⟨⟨upd airGrid 0 stoneBlock, airChunk.position⟩, []⟩)
        (IVec3.mk 0 0 0) atlas0
        = .ok ((Chunks.insert w0set (IVec3.mk 0 0 0)
            ⟨⟨upd airGrid 0 stoneBlock, airChunk.position⟩, []⟩).insert (IVec3.mk 0 0 0)
          ⟨⟨upd airGrid 0 stoneBlock, airChunk.position⟩, m⟩) := by
      rw [regenerate_chunk_at_eq _ (IVec3.mk 0 0 0) atlas0
        ⟨⟨upd airGrid 0 stoneBlock, airChunk.position⟩, []⟩ rfl]
      have hfold : faceOrder.foldl (regenStep atlas0 (IVec3.mk 0 0 0))
          (.ok (upd airGrid 0 stoneBlock,
            Chunks.insert w0set (IVec3.mk 0 0 0)
              ⟨⟨upd airGrid 0 stoneBlock, airChunk.position⟩, []⟩))
          = .ok (upd airGrid 0 stoneBlock,
            Chunks.insert w0set (IVec3.mk 0 0 0)
              ⟨⟨upd airGrid 0 stoneBlock, airChunk.position⟩, []⟩) := by
        show List.foldl _ _ [ChunkFace.Front, .Back, .Top, .Bottom, .Right, .Left] = _
        rw [List.foldl_cons, regenStep_none atlas0 _ rfl,
          List.foldl_cons, regenStep_none atlas0 _ rfl,
          List.foldl_cons, regenStep_none atlas0 _ rfl,
          List.foldl_cons, regenStep_none atlas0 _ rfl,
          List.foldl_cons, regenStep_none atlas0 _ rfl,
          List.foldl_cons, regenStep_none atlas0 _ rfl]
        rfl
      rw [hfold]
      dsimp only
      rw [hm]
      rfl
    refine ⟨_, hsb.trans hreg, ?_⟩
    intro e he
    rw [insert_get_same] at he
    cases he
    constructor
    · exact upd_same airGrid 0 stoneBlock
    · exact upd_other airGrid 0 (ChunkShape.linearize 1 1 1) stoneBlock (by decide)
  · rfl

/-! Witness for claim C10, and the synchronization-pass development for
claims C1 and C4: step lemmas for the neighbour fold, the mirror state
after one face's copy loop, and the interior-edit frame argument. -/

/-- Witness for C10 at the head pair of the Front tables: boundary cell
(0,0,1), linear index 324, is paired with padding cell (0,0,0), linear
index 0. -/
theorem claim_c10_witness :
    324 < ChunkShape.SIZE ∧ 0 < ChunkShape.SIZE
      ∧ oneStepAlong ChunkFace.Front 324 0 :=
  claim_c10_face_tables_in_bounds_and_paired ChunkFace.Front (324, 0) (by
    rw [own_face_eq_gl, other_face_eq_gl, gl_zip]
    exact mem_gl.2 ⟨0, 0, by decide, by decide, rfl⟩)

/-- HashMap::insert of the very entry already stored at a key changes
nothing. -/
theorem insert_self {w : Chunks} {p : IVec3} {e : ChunkEntity} (h : w p = some e) :
    w.insert p e = w := by
  funext q
  simp only [Chunks.insert]
  split
  · next hq => rw [hq, h]
  · rfl

/-- One neighbour step of the fold when the neighbour is present. -/
theorem regenStep_some {w : Chunks} {P : IVec3} {f : ChunkFace} {nb : ChunkEntity}
    (atlas : TextureAtlasLayout) (own : Grid) (h : w (P + f.offset) = some nb) :
    regenStep atlas P (.ok (own, w)) f =
      match create_and_update_geometry own nb.chunk.blocks f atlas with
      | .error e => .error e
      | .ok (own2, ng, m) =>
        .ok (own2, w.insert (P + f.offset) ⟨⟨ng, nb.chunk.position⟩, m⟩) := by
  simp only [regenStep, get_neighbouring_eq, h]

/-- Unfolding of create_and_update_geometry when the regenerated
neighbour's mesh generation succeeds. -/
theorem create_and_update_eq {c n : Grid} {f : ChunkFace} {atlas : TextureAtlasLayout}
    {m : List Quad}
    (hm : gen_geometry ((facePairs f).foldl exchangeStep (c, n)).2 atlas = .ok m) :
    create_and_update_geometry c n f atlas
      = .ok (((facePairs f).foldl exchangeStep (c, n)).1,
          ((facePairs f).foldl exchangeStep (c, n)).2, m) := by
  simp only [create_and_update_geometry]
  rw [hm]

/-- After one face's copy loop the two resulting grids themselves satisfy
the mirror invariant: the padding cells were just written from boundary
cells that the loop never overwrites. -/
theorem exchange_final_mirror (f : ChunkFace) (c n : Grid) :
    MirrorInv ((facePairs f).foldl exchangeStep (c, n)).1
      ((facePairs f).foldl exchangeStep (c, n)).2 f := by
  intro p hp
  have hm := face_exchange_mirror f c n p hp
  constructor
  · rw [hm.1, exchange_snd_off fun q hq => facePairs_nOwn_ne_nOther f p hp q hq]
  · rw [hm.2, exchange_fst_off fun q hq => facePairs_cOwn_ne_cOther f p hp q hq]

/-- A successful create_and_update_geometry returns grids satisfying the
mirror invariant along its face. -/
theorem create_and_update_ok_mirror {c n : Grid} {f : ChunkFace}
    {atlas : TextureAtlasLayout} {o2 ng : Grid} {m : List Quad}
    (h : create_and_update_geometry c n f atlas = .ok (o2, ng, m)) :
    MirrorInv o2 ng f := by
  simp only [create_and_update_geometry] at h
  rcases hg : gen_geometry ((facePairs f).foldl exchangeStep (c, n)).2 atlas with e | mq
  · rw [hg] at h
    cases h
  · rw [hg] at h
    simp only [Except.ok.injEq, Prod.mk.injEq] at h
    obtain ⟨h1, h2, h3⟩ := h
    rw [← h1, ← h2]
    exact exchange_final_mirror f c n

/-- The neighbour fold over faces that all have no registered neighbour is
the identity. -/
theorem regenFold_none (atlas : TextureAtlasLayout) (P : IVec3) :
    ∀ (fs : List ChunkFace) (own : Grid) (w : Chunks),
      (∀ f ∈ fs, w (P + f.offset) = none) →
      fs.foldl (regenStep atlas P) (.ok (own, w)) = .ok (own, w) := by
  intro fs
  induction fs with
  | nil => intro own w _; rfl
  | cons f t ih =>
    intro own w h
    rw [List.foldl_cons, regenStep_none atlas own (h f (List.mem_cons_self f t))]
    exact ih own w fun g hg => h g (List.mem_cons_of_mem f hg)

/-- The neighbour fold when exactly one direction D has a registered
neighbour: the result is D's exchange against that neighbour, every other
step being a no-op. -/
theorem regenFold_single (atlas : TextureAtlasLayout) (P : IVec3) (D : ChunkFace)
    (nb : ChunkEntity) :
    ∀ (fs : List ChunkFace) (own : Grid) (w : Chunks),
      D ∈ fs → fs.Nodup →
      w (P + D.offset) = some nb →
      (∀ f : ChunkFace, f ≠ D → w (P + f.offset) = none) →
      fs.foldl (regenStep atlas P) (.ok (own, w)) =
        match create_and_update_geometry own nb.chunk.blocks D atlas with
        | .error e => .error e
        | .ok (own2, ng, m) =>
          .ok (own2, w.insert (P + D.offset) ⟨⟨ng, nb.chunk.position⟩, m⟩) := by
  intro fs
  induction fs with
  | nil =>
    intro own w hD _ _ _
    cases hD
  | cons f t ih =>
    intro own w hD hnd hsome hnone
    by_cases hfD : f = D
    · subst hfD
      rw [List.foldl_cons, regenStep_some atlas own hsome]
      rcases hcr : create_and_update_geometry own nb.chunk.blocks f atlas
        with e | ⟨o2, ng, m⟩
      · dsimp only
        exact regenFold_error atlas P t e
      · dsimp only
        refine regenFold_none atlas P t o2 _ ?_
        intro g hg
        have hgD : g ≠ f := fun hEq => (List.nodup_cons.1 hnd).1 (hEq ▸ hg)
        rw [insert_get_other _ _ _ (add_offset_ne_of_ne P hgD)]
        exact hnone g hgD
    · have hDt : D ∈ t := by
        rcases List.mem_cons.1 hD with hEq | h
        · exact absurd hEq.symm hfD
        · exact h
      rw [List.foldl_cons, regenStep_none atlas own (hnone f hfD)]
      exact ih own w hDt (List.nodup_cons.1 hnd).2 hsome hnone

/-- Claim C1, amended: for a chunk registered at P whose ONLY registered
neighbour is the one at P+offset(D), a successful synchronization pass for
P leaves the two stored chunks satisfying the bidirectional mirror
invariant cell-by-cell over the paired index tables: P's padding toward D
equals the neighbour's boundary toward D′ and the neighbour's padding
toward D′ equals P's boundary toward D.  (Amendment: the original claim
quantifies over arbitrary worlds; with a second neighbour along another
face the later face's copy loop overwrites the shared edge cells of an
earlier face's padding, see the counterexample.) -/
theorem claim_c1_mirror_after_sync :
    ∀ (w : Chunks) (P : IVec3) (D : ChunkFace) (atlas : TextureAtlasLayout)
      (eN : ChunkEntity) (w' : Chunks) (eP' eN' : ChunkEntity),
      w (P + D.offset) = some eN →
      (∀ f : ChunkFace, f ≠ D → w (P + f.offset) = none) →
      Chunks.regenerate_chunk_at w P atlas = .ok w' →
      w' P = some eP' →
      w' (P + D.offset) = some eN' →
      MirrorInv eP'.chunk.blocks eN'.chunk.blocks D := by
  intro w P D atlas eN w' eP' eN' hN hnone hreg hP' hN'
  rcases hw : w P with _ | eP
  · rw [Chunks.regenerate_chunk_at, hw] at hreg
    cases hreg
  · rw [regenerate_chunk_at_eq w P atlas eP hw] at hreg
    have hmem : D ∈ faceOrder := by cases D <;> simp [faceOrder]
    have hnd : faceOrder.Nodup := by decide
    rw [regenFold_single atlas P D eN faceOrder eP.chunk.blocks w hmem hnd hN hnone] at hreg
    rcases hcr : create_and_update_geometry eP.chunk.blocks eN.chunk.blocks D atlas
      with e | ⟨o2, ng, m⟩
    · rw [hcr] at hreg
      cases hreg
    · rw [hcr] at hreg
      dsimp only at hreg
      rcases hgen : gen_geometry o2 atlas with e2 | m2
      · rw [hgen] at hreg
        cases hreg
      · rw [hgen] at hreg
        dsimp only at hreg
        rw [insert_get_other _ _ _ (add_offset_ne P D).symm, hw] at hreg
        dsimp only at hreg
        cases hreg
        rw [insert_get_same] at hP'
        injection hP' with hP2
        rw [insert_get_other _ _ _ (add_offset_ne P D), insert_get_same] at hN'
        injection hN' with hN2
        rw [← hP2, ← hN2]
        exact create_and_update_ok_mirror hcr


/-- Cells of the face index tables have a coordinate in {0, 1, 16, 17}, so
an edited cell whose padded coordinates all lie in 2..15 is distinct from
every boundary-table and padding-table cell of every face. -/
theorem edit_ne_table (f : ChunkFace) {a b ex ey ez : Nat} (ha : a < PADDED)
    (hb : b < PADDED) (hex : 2 ≤ ex ∧ ex ≤ 15) (hey : 2 ≤ ey ∧ ey ≤ 15)
    (hez : 2 ≤ ez ∧ ez ≤ 15) :
    ChunkShape.linearize ex ey ez ≠ linTriple (ownCoord f a b)
      ∧ ChunkShape.linearize ex ey ez ≠ linTriple (otherCoord f a b) := by
  cases f <;>
    (simp only [ownCoord, otherCoord, linTriple, ChunkShape.linearize, PADDED,
      CHUNK_SIZE] at ha hb ⊢
     omega)

/-- Editing a cell off the interior's boundary preserves the mirror
invariant with every neighbour. -/
theorem upd_interior_mirrorInv {c n : Grid} {f : ChunkFace} {ex ey ez : Nat} {v : Block}
    (hex : 2 ≤ ex ∧ ex ≤ 15) (hey : 2 ≤ ey ∧ ey ≤ 15) (hez : 2 ≤ ez ∧ ez ≤ 15)
    (hM : MirrorInv c n f) :
    MirrorInv (upd c (ChunkShape.linearize ex ey ez) v) n f := by
  intro p hp
  have hp2 := hp
  rw [facePairs_eq_gl] at hp2
  obtain ⟨a, b, ha, hb, hab⟩ := mem_gl.1 hp2
  obtain ⟨h1, h2⟩ := hM p hp
  subst hab
  dsimp only at h1 h2 ⊢
  constructor
  · rw [upd_other _ _ _ _ (Ne.symm (edit_ne_table f ha hb hex hey hez).2)]
    exact h1
  · rw [upd_other _ _ _ _ (Ne.symm (edit_ne_table f ha hb hex hey hez).1)]
    exact h2

/-- The neighbour fold is the identity when every present neighbour
already satisfies the mirror invariant against the threaded grid and its
stored mesh is the generated mesh of its stored grid. -/
theorem regenFold_id (atlas : TextureAtlasLayout) (P : IVec3) (c : Grid) :
    ∀ (fs : List ChunkFace) (w : Chunks),
      (∀ f ∈ fs, ∀ nb : ChunkEntity, w (P + f.offset) = some nb →
        MirrorInv c nb.chunk.blocks f
          ∧ gen_geometry nb.chunk.blocks atlas = .ok nb.mesh) →
      fs.foldl (regenStep atlas P) (.ok (c, w)) = .ok (c, w) := by
  intro fs
  induction fs with
  | nil => intro w _; rfl
  | cons f t ih =>
    intro w h
    rw [List.foldl_cons]
    rcases hnb : w (P + f.offset) with _ | nb
    · rw [regenStep_none atlas c hnb]
      exact ih w fun g hg => h g (List.mem_cons_of_mem f hg)
    · obtain ⟨hM, hgen⟩ := h f (List.mem_cons_self f t) nb hnb
      have hmesh : gen_geometry
          ((facePairs f).foldl exchangeStep (c, nb.chunk.blocks)).2 atlas
          = .ok nb.mesh := by
        rw [face_exchange_id hM]
        exact hgen
      have hstep : regenStep atlas P (.ok (c, w)) f = .ok (c, w) := by
        rw [regenStep_some atlas c hnb, create_and_update_eq hmesh]
        dsimp only
        rw [face_exchange_id hM]
        dsimp only
        rw [show (⟨⟨nb.chunk.blocks, nb.chunk.position⟩, nb.mesh⟩ : ChunkEntity) = nb
          from rfl]
        rw [insert_self hnb]
      rw [hstep]
      exact ih w fun g hg => h g (List.mem_cons_of_mem f hg)

/-- Full evaluation of the synchronization pass when every present
neighbour already satisfies the mirror invariant with the stored chunk and
every stored mesh is in sync: only the chunk at P is re-stored, with a
freshly generated mesh. -/
theorem regen_of_fold_id {atlas : TextureAtlasLayout} {P : IVec3} {eP : ChunkEntity}
    {w : Chunks} {m2 : List Quad}
    (hP : w P = some eP)
    (hcond : ∀ f ∈ faceOrder, ∀ nb : ChunkEntity, w (P + f.offset) = some nb →
      MirrorInv eP.chunk.blocks nb.chunk.blocks f
        ∧ gen_geometry nb.chunk.blocks atlas = .ok nb.mesh)
    (hgen : gen_geometry eP.chunk.blocks atlas = .ok m2) :
    Chunks.regenerate_chunk_at w P atlas
      = .ok (w.insert P ⟨⟨eP.chunk.blocks, eP.chunk.position⟩, m2⟩) := by
  rw [regenerate_chunk_at_eq w P atlas eP hP,
    regenFold_id atlas P eP.chunk.blocks faceOrder w hcond]
  dsimp only
  rw [hgen]
  dsimp only
  rw [hP]

/-- Two air chunks: one at the origin, one behind it (z = 1), the witness
world for the amended C1. -/
def wAB : Chunks :=
  Chunks.insert
    (Chunks.insert (fun _ => none) (IVec3.mk 0 0 1) ⟨⟨airGrid, ⟨0, 0, 1⟩⟩, []⟩)
    (IVec3.mk 0 0 0) ⟨⟨airGrid, ⟨0, 0, 0⟩⟩, []⟩

/-- The synchronization pass on the two-air-chunk world succeeds and (all
copied cells already being air, and the air mesh being empty) returns the
world unchanged. -/
theorem wAB_regen :
    Chunks.regenerate_chunk_at wAB (IVec3.mk 0 0 0) atlas0 = .ok wAB := by
  have hcond : ∀ f ∈ faceOrder, ∀ nb : ChunkEntity,
      wAB (IVec3.mk 0 0 0 + f.offset) = some nb →
      MirrorInv airGrid nb.chunk.blocks f
        ∧ gen_geometry nb.chunk.blocks atlas0 = .ok nb.mesh := by
    intro f _ nb h
    cases f
    · rw [show wAB (IVec3.mk 0 0 0 + ChunkFace.Front.offset) = none from rfl] at h
      cases h
    · rw [show wAB (IVec3.mk 0 0 0 + ChunkFace.Back.offset)
        = some ⟨⟨airGrid, ⟨0, 0, 1⟩⟩, []⟩ from rfl] at h
      cases h
      exact ⟨fun p _ => ⟨rfl, rfl⟩, gen_geometry_airGrid atlas0⟩
    · rw [show wAB (IVec3.mk 0 0 0 + ChunkFace.Top.offset) = none from rfl] at h
      cases h
    · rw [show wAB (IVec3.mk 0 0 0 + ChunkFace.Bottom.offset) = none from rfl] at h
      cases h
    · rw [show wAB (IVec3.mk 0 0 0 + ChunkFace.Left.offset) = none from rfl] at h
      cases h
    · rw [show wAB (IVec3.mk 0 0 0 + ChunkFace.Right.offset) = none from rfl] at h
      cases h
  have h6 := regen_of_fold_id
    (show wAB (IVec3.mk 0 0 0) = some ⟨⟨airGrid, ⟨0, 0, 0⟩⟩, []⟩ from rfl)
    hcond (gen_geometry_airGrid atlas0)
  dsimp only at h6
  rw [insert_self (show wAB (IVec3.mk 0 0 0) = some ⟨⟨airGrid, ⟨0, 0, 0⟩⟩, []⟩ from rfl)]
    at h6
  exact h6

/-- Witness for the amended C1 on the two-air-chunk world along Back. -/
theorem claim_c1_witness :
    Chunks.regenerate_chunk_at wAB (IVec3.mk 0 0 0) atlas0 = .ok wAB
      ∧ MirrorInv airGrid airGrid ChunkFace.Back :=
  ⟨wAB_regen,
    claim_c1_mirror_after_sync wAB (IVec3.mk 0 0 0) ChunkFace.Back atlas0
      ⟨⟨airGrid, ⟨0, 0, 1⟩⟩, []⟩ wAB ⟨⟨airGrid, ⟨0, 0, 0⟩⟩, []⟩ ⟨⟨airGrid, ⟨0, 0, 1⟩⟩, []⟩
      rfl (fun f hf => by cases f <;> first | rfl | exact absurd rfl hf)
      wAB_regen rfl rfl⟩

/-- Full evaluation of the synchronization pass at a position with exactly
two registered neighbours, in front and to the right, when all three mesh
generations succeed: the Front exchange runs first against the stored
grid, the Right exchange runs second against the Front exchange's output. -/
theorem regen_front_right {atlas : TextureAtlasLayout} {P : IVec3}
    {nf nr eP : ChunkEntity} {w : Chunks} {o1 o2 gf gr : Grid} {mf mr mo : List Quad}
    (hP : w P = some eP)
    (hF : w (P + ChunkFace.Front.offset) = some nf)
    (hR : w (P + ChunkFace.Right.offset) = some nr)
    (hBack : w (P + ChunkFace.Back.offset) = none)
    (hTop : w (P + ChunkFace.Top.offset) = none)
    (hBottom : w (P + ChunkFace.Bottom.offset) = none)
    (hLeft : w (P + ChunkFace.Left.offset) = none)
    (hc1 : create_and_update_geometry eP.chunk.blocks nf.chunk.blocks ChunkFace.Front
      atlas = .ok (o1, gf, mf))
    (hc2 : create_and_update_geometry o1 nr.chunk.blocks ChunkFace.Right atlas
      = .ok (o2, gr, mr))
    (hgen : gen_geometry o2 atlas = .ok mo) :
    Chunks.regenerate_chunk_at w P atlas
      = .ok (((w.insert (P + ChunkFace.Front.offset) ⟨⟨gf, nf.chunk.position⟩, mf⟩).insert
            (P + ChunkFace.Right.offset) ⟨⟨gr, nr.chunk.position⟩, mr⟩).insert P
          ⟨⟨o2, eP.chunk.position⟩, mo⟩) := by
  have hb2 : (w.insert (P + ChunkFace.Front.offset) ⟨⟨gf, nf.chunk.position⟩, mf⟩)
      (P + ChunkFace.Back.offset) = none := by
    rw [insert_get_other _ _ _ (add_offset_ne_of_ne P (by decide))]
    exact hBack
  have ht2 : (w.insert (P + ChunkFace.Front.offset) ⟨⟨gf, nf.chunk.position⟩, mf⟩)
      (P + ChunkFace.Top.offset) = none := by
    rw [insert_get_other _ _ _ (add_offset_ne_of_ne P (by decide))]
    exact hTop
  have hm2 : (w.insert (P + ChunkFace.Front.offset) ⟨⟨gf, nf.chunk.position⟩, mf⟩)
      (P + ChunkFace.Bottom.offset) = none := by
    rw [insert_get_other _ _ _ (add_offset_ne_of_ne P (by decide))]
    exact hBottom
  have hr2 : (w.insert (P + ChunkFace.Front.offset) ⟨⟨gf, nf.chunk.position⟩, mf⟩)
      (P + ChunkFace.Right.offset) = some nr := by
    rw [insert_get_other _ _ _ (add_offset_ne_of_ne P (by decide))]
    exact hR
  have hl2 : ((w.insert (P + ChunkFace.Front.offset) ⟨⟨gf, nf.chunk.position⟩, mf⟩).insert
      (P + ChunkFace.Right.offset) ⟨⟨gr, nr.chunk.position⟩, mr⟩)
      (P + ChunkFace.Left.offset) = none := by
    rw [insert_get_other _ _ _ (add_offset_ne_of_ne P (by decide)),
      insert_get_other _ _ _ (add_offset_ne_of_ne P (by decide))]
    exact hLeft
  have ho2 : ((w.insert (P + ChunkFace.Front.offset) ⟨⟨gf, nf.chunk.position⟩, mf⟩).insert
      (P + ChunkFace.Right.offset) ⟨⟨gr, nr.chunk.position⟩, mr⟩) P = some eP := by
    rw [insert_get_other _ _ _ (add_offset_ne P ChunkFace.Right).symm,
      insert_get_other _ _ _ (add_offset_ne P ChunkFace.Front).symm]
    exact hP
  rw [regenerate_chunk_at_eq w P atlas eP hP]
  have hfold : faceOrder.foldl (regenStep atlas P) (.ok (eP.chunk.blocks, w))
      = .ok (o2, (w.insert (P + ChunkFace.Front.offset)
          ⟨⟨gf, nf.chunk.position⟩, mf⟩).insert
          (P + ChunkFace.Right.offset) ⟨⟨gr, nr.chunk.position⟩, mr⟩) := by
    show List.foldl _ _ [ChunkFace.Front, .Back, .Top, .Bottom, .Right, .Left] = _
    rw [List.foldl_cons, regenStep_some atlas eP.chunk.blocks hF, hc1]
    dsimp only
    rw [List.foldl_cons, regenStep_none atlas o1 hb2,
      List.foldl_cons, regenStep_none atlas o1 ht2,
      List.foldl_cons, regenStep_none atlas o1 hm2,
      List.foldl_cons, regenStep_some atlas o1 hr2, hc2]
    dsimp only
    rw [List.foldl_cons, regenStep_none atlas o2 hl2]
    rfl
  rw [hfold]
  dsimp only
  rw [hgen]
  dsimp only
  rw [ho2]

/-- The all-stone grid of the C1 counterexample's front neighbour. -/
def stoneGrid : Grid := fun _ => stoneBlock

/-- Counterexample world for C1: an air chunk at the origin, an all-stone
chunk in front of it (z = -1) and a second air chunk to its right (x = 1). -/
def cexWorld : Chunks :=
  Chunks.insert
    (Chunks.insert
      (Chunks.insert (fun _ => none) (IVec3.mk 0 0 (-1)) ⟨⟨stoneGrid, ⟨0, 0, -1⟩⟩, []⟩)
      (IVec3.mk 1 0 0) ⟨⟨airGrid, ⟨1, 0, 0⟩⟩, []⟩)
    (IVec3.mk 0 0 0) ⟨⟨airGrid, ⟨0, 0, 0⟩⟩, []⟩

theorem airGrid_cells : ∀ j, airGrid j = Block.air ∨ Resolvable atlas0 (airGrid j) :=
  fun _ => Or.inl rfl

theorem stoneGrid_cells :
    ∀ j, stoneGrid j = Block.air ∨ Resolvable atlas0 (stoneGrid j) :=
  fun _ => Or.inr fun _ => ⟨0, 0, rfl, rfl⟩

theorem cexFront_cells :
    (∀ j, ((facePairs ChunkFace.Front).foldl exchangeStep (airGrid, stoneGrid)).1 j
        = Block.air
      ∨ Resolvable atlas0
          (((facePairs ChunkFace.Front).foldl exchangeStep (airGrid, stoneGrid)).1 j))
    ∧ ∀ j, ((facePairs ChunkFace.Front).foldl exchangeStep (airGrid, stoneGrid)).2 j
        = Block.air
      ∨ Resolvable atlas0
          (((facePairs ChunkFace.Front).foldl exchangeStep (airGrid, stoneGrid)).2 j) :=
  exchange_cells (P := fun b => b = Block.air ∨ Resolvable atlas0 b)
    (facePairs ChunkFace.Front) airGrid_cells stoneGrid_cells

theorem cexRight_cells :
    (∀ j, ((facePairs ChunkFace.Right).foldl exchangeStep
        (((facePairs ChunkFace.Front).foldl exchangeStep (airGrid, stoneGrid)).1,
          airGrid)).1 j = Block.air
      ∨ Resolvable atlas0
          (((facePairs ChunkFace.Right).foldl exchangeStep
            (((facePairs ChunkFace.Front).foldl exchangeStep (airGrid, stoneGrid)).1,
              airGrid)).1 j))
    ∧ ∀ j, ((facePairs ChunkFace.Right).foldl exchangeStep
        (((facePairs ChunkFace.Front).foldl exchangeStep (airGrid, stoneGrid)).1,
          airGrid)).2 j = Block.air
      ∨ Resolvable atlas0
          (((facePairs ChunkFace.Right).foldl exchangeStep
            (((facePairs ChunkFace.Front).foldl exchangeStep (airGrid, stoneGrid)).1,
              airGrid)).2 j) :=
  exchange_cells (P := fun b => b = Block.air ∨ Resolvable atlas0 b)
    (facePairs ChunkFace.Right) cexFront_cells.1 airGrid_cells

/-- Counterexample to C1 as stated: in `cexWorld` the origin chunk has a
stone chunk in front of it (D = Front) and an air chunk to its right.  The
Right copy loop runs after the Front one and overwrites the shared edge
cells of the Front padding (the x = 17 column of the z = 0 shell): after
the pass, the origin chunk's Front padding cell (17,5,0) holds air while
the front neighbour's boundary cell (17,5,16) still holds stone, so the
mirror equality fails at that pair of the Front index tables. -/
theorem claim_c1_counterexample :
    ∃ w', Chunks.regenerate_chunk_at cexWorld (IVec3.mk 0 0 0) atlas0 = .ok w'
      ∧ ∃ (eP eF : ChunkEntity) (p : XPair),
          w' (IVec3.mk 0 0 0) = some eP
          ∧ w' (IVec3.mk 0 0 0 + ChunkFace.Front.offset) = some eF
          ∧ p ∈ facePairs ChunkFace.Front
          ∧ eP.chunk.blocks p.cOther ≠ eF.chunk.blocks p.nOwn := by
  obtain ⟨m1, hm1⟩ := gen_geometry_ok_of_cells
    (g := ((facePairs ChunkFace.Front).foldl exchangeStep (airGrid, stoneGrid)).2)
    cexFront_cells.2
  obtain ⟨m2, hm2⟩ := gen_geometry_ok_of_cells
    (g := ((facePairs ChunkFace.Right).foldl exchangeStep
      (((facePairs ChunkFace.Front).foldl exchangeStep (airGrid, stoneGrid)).1,
        airGrid)).2)
    cexRight_cells.2
  obtain ⟨m3, hm3⟩ := gen_geometry_ok_of_cells
    (g := ((facePairs ChunkFace.Right).foldl exchangeStep
      (((facePairs ChunkFace.Front).foldl exchangeStep (airGrid, stoneGrid)).1,
        airGrid)).1)
    cexRight_cells.1
  have hreg := regen_front_right
    (show cexWorld (IVec3.mk 0 0 0) = some ⟨⟨airGrid, ⟨0, 0, 0⟩⟩, []⟩ from rfl)
    (show cexWorld (IVec3.mk 0 0 0 + ChunkFace.Front.offset)
      = some ⟨⟨stoneGrid, ⟨0, 0, -1⟩⟩, []⟩ from rfl)
    (show cexWorld (IVec3.mk 0 0 0 + ChunkFace.Right.offset)
      = some ⟨⟨airGrid, ⟨1, 0, 0⟩⟩, []⟩ from rfl)
    rfl rfl rfl rfl
    (create_and_update_eq hm1) (create_and_update_eq hm2) hm3
  dsimp only at hreg
  refine ⟨_, hreg,
    ⟨⟨((facePairs ChunkFace.Right).foldl exchangeStep
        (((facePairs ChunkFace.Front).foldl exchangeStep (airGrid, stoneGrid)).1,
          airGrid)).1, ⟨0, 0, 0⟩⟩, m3⟩,
    ⟨⟨((facePairs ChunkFace.Front).foldl exchangeStep (airGrid, stoneGrid)).2,
      ⟨0, 0, -1⟩⟩, m1⟩,
    XPair.mk (linTriple (ownCoord ChunkFace.Front 17 5))
      (linTriple (otherCoord ChunkFace.Front 17 5))
      (linTriple (ownCoord ChunkFace.Front.opposite 17 5))
      (linTriple (otherCoord ChunkFace.Front.opposite 17 5)),
    insert_get_same _ _ _, ?_, ?_, ?_⟩
  · rw [insert_get_other _ _ _ (add_offset_ne (IVec3.mk 0 0 0) ChunkFace.Front),
      insert_get_other _ _ _ (add_offset_ne_of_ne (IVec3.mk 0 0 0) (by decide))]
    exact insert_get_same _ _ _
  · rw [facePairs_eq_gl]
    exact mem_gl.2 ⟨17, 5, by decide, by decide, rfl⟩
  · dsimp only
    have hp : XPair.mk (linTriple (ownCoord ChunkFace.Right 5 0))
        (linTriple (otherCoord ChunkFace.Right 5 0))
        (linTriple (ownCoord ChunkFace.Right.opposite 5 0))
        (linTriple (otherCoord ChunkFace.Right.opposite 5 0))
        ∈ facePairs ChunkFace.Right := by
      rw [facePairs_eq_gl]
      exact mem_gl.2 ⟨5, 0, by decide, by decide, rfl⟩
    have hL : ((facePairs ChunkFace.Right).foldl exchangeStep
        (((facePairs ChunkFace.Front).foldl exchangeStep (airGrid, stoneGrid)).1,
          airGrid)).1 (linTriple (otherCoord ChunkFace.Front 17 5)) = Block.air :=
      (face_exchange_mirror ChunkFace.Right
        ((facePairs ChunkFace.Front).foldl exchangeStep (airGrid, stoneGrid)).1
        airGrid _ hp).1
    have hne : ∀ q ∈ facePairs ChunkFace.Front,
        linTriple (ownCoord ChunkFace.Front.opposite 17 5) ≠ q.nOther := by
      intro q hq
      rw [facePairs_eq_gl] at hq
      obtain ⟨a, b, ha, hb, rfl⟩ := mem_gl.1 hq
      dsimp only [ChunkFace.opposite, ownCoord, otherCoord, linTriple, CHUNK_SIZE]
      intro hEq
      exact absurd
        (linearize_inj (by decide) (by decide) (by decide) ha hb (by decide) hEq).2.2
        (by decide)
    have hR : ((facePairs ChunkFace.Front).foldl exchangeStep (airGrid, stoneGrid)).2
        (linTriple (ownCoord ChunkFace.Front.opposite 17 5)) = stoneBlock :=
      exchange_snd_off hne
    rw [hL, hR]
    simp [Block.air, stoneBlock]

/-- Claim C4: assume the pre-edit mirror invariant between the chunk at P
and each present neighbour, and that each neighbour's stored mesh is the
generated mesh of its stored grid (spec §3: regeneration is idempotent on
an unchanged grid).  Then editing a cell of the chunk at P whose padded
coordinates all lie in 2..15 — an interior cell not on the 16³ interior's
boundary — and re-running the synchronization pass for P leaves every
present neighbour's registry entry (voxel grid, padding and stored mesh)
exactly unchanged. -/
theorem claim_c4_interior_edit_preserves_neighbours :
    ∀ (w : Chunks) (P : IVec3) (atlas : TextureAtlasLayout) (c0 : Grid) (q0 : IVec3)
      (m0 : List Quad) (ex ey ez : Nat) (v : Block) (w' : Chunks),
      2 ≤ ex ∧ ex ≤ 15 → 2 ≤ ey ∧ ey ≤ 15 → 2 ≤ ez ∧ ez ≤ 15 →
      (∀ (f : ChunkFace) (nb : ChunkEntity), w (P + f.offset) = some nb →
        MirrorInv c0 nb.chunk.blocks f
          ∧ gen_geometry nb.chunk.blocks atlas = .ok nb.mesh) →
      Chunks.regenerate_chunk_at
          (w.insert P ⟨⟨upd c0 (ChunkShape.linearize ex ey ez) v, q0⟩, m0⟩) P atlas
        = .ok w' →
      ∀ (f : ChunkFace) (nb : ChunkEntity), w (P + f.offset) = some nb →
        w' (P + f.offset) = some nb := by
  intro w P atlas c0 q0 m0 ex ey ez v w' hex hey hez hnbs hreg f nb hf
  rw [regenerate_chunk_at_eq _ P atlas
    ⟨⟨upd c0 (ChunkShape.linearize ex ey ez) v, q0⟩, m0⟩ (insert_get_same _ _ _)] at hreg
  dsimp only at hreg
  have hcond : ∀ g ∈ faceOrder, ∀ nc : ChunkEntity,
      (w.insert P ⟨⟨upd c0 (ChunkShape.linearize ex ey ez) v, q0⟩, m0⟩) (P + g.offset)
        = some nc →
      MirrorInv (upd c0 (ChunkShape.linearize ex ey ez) v) nc.chunk.blocks g
        ∧ gen_geometry nc.chunk.blocks atlas = .ok nc.mesh := by
    intro g _ nc hnc
    rw [insert_get_other _ _ _ (add_offset_ne P g)] at hnc
    obtain ⟨hM, hgen⟩ := hnbs g nc hnc
    exact ⟨upd_interior_mirrorInv hex hey hez hM, hgen⟩
  rw [regenFold_id atlas P (upd c0 (ChunkShape.linearize ex ey ez) v) faceOrder
    (w.insert P ⟨⟨upd c0 (ChunkShape.linearize ex ey ez) v, q0⟩, m0⟩) hcond] at hreg
  dsimp only at hreg
  rcases hgen : gen_geometry (upd c0 (ChunkShape.linearize ex ey ez) v) atlas with e | m
  · rw [hgen] at hreg
    cases hreg
  · rw [hgen] at hreg
    dsimp only at hreg
    rw [insert_get_same] at hreg
    dsimp only at hreg
    cases hreg
    rw [insert_get_other _ _ _ (add_offset_ne P f),
      insert_get_other _ _ _ (add_offset_ne P f)]
    exact hf

/-- A one-entry registry holding an air chunk behind the origin (z = 1),
the neighbour world of the C4 witness. -/
def wN : Chunks :=
  Chunks.insert (fun _ => none) (IVec3.mk 0 0 1) ⟨⟨airGrid, ⟨0, 0, 1⟩⟩, []⟩

/-- Cells of an air grid with one stone cell written anywhere. -/
theorem upd_airGrid_cells_at (k : Nat) :
    ∀ i, (upd airGrid k stoneBlock) i = Block.air
      ∨ Resolvable atlas0 ((upd airGrid k stoneBlock) i) := by
  intro i
  rw [upd]
  split
  · right
    intro _
    exact ⟨0, 0, rfl, rfl⟩
  · left
    rfl

/-- Witness for C4: the origin chunk (edited at interior cell (5,5,5))
next to one air neighbour behind it; the pass succeeds and the neighbour's
entry is unchanged. -/
theorem claim_c4_witness :
    ∃ w', Chunks.regenerate_chunk_at
        (wN.insert (IVec3.mk 0 0 0)
          ⟨⟨upd airGrid (ChunkShape.linearize 5 5 5) stoneBlock, ⟨0, 0, 0⟩⟩, []⟩)
        (IVec3.mk 0 0 0) atlas0 = .ok w'
      ∧ ∀ (f : ChunkFace) (nb : ChunkEntity),
          wN (IVec3.mk 0 0 0 + f.offset) = some nb →
          w' (IVec3.mk 0 0 0 + f.offset) = some nb := by
  have hnbs : ∀ (f : ChunkFace) (nb : ChunkEntity),
      wN (IVec3.mk 0 0 0 + f.offset) = some nb →
      MirrorInv airGrid nb.chunk.blocks f
        ∧ gen_geometry nb.chunk.blocks atlas0 = .ok nb.mesh := by
    intro f nb h
    cases f
    · rw [show wN (IVec3.mk 0 0 0 + ChunkFace.Front.offset) = none from rfl] at h
      cases h
    · rw [show wN (IVec3.mk 0 0 0 + ChunkFace.Back.offset)
        = some ⟨⟨airGrid, ⟨0, 0, 1⟩⟩, []⟩ from rfl] at h
      cases h
      exact ⟨fun p _ => ⟨rfl, rfl⟩, gen_geometry_airGrid atlas0⟩
    · rw [show wN (IVec3.mk 0 0 0 + ChunkFace.Top.offset) = none from rfl] at h
      cases h
    · rw [show wN (IVec3.mk 0 0 0 + ChunkFace.Bottom.offset) = none from rfl] at h
      cases h
    · rw [show wN (IVec3.mk 0 0 0 + ChunkFace.Left.offset) = none from rfl] at h
      cases h
    · rw [show wN (IVec3.mk 0 0 0 + ChunkFace.Right.offset) = none from rfl] at h
      cases h
  obtain ⟨m, hm⟩ := gen_geometry_ok_of_cells
    (g := upd airGrid (ChunkShape.linearize 5 5 5) stoneBlock)
    (upd_airGrid_cells_at (ChunkShape.linearize 5 5 5))
  have hcond : ∀ g ∈ faceOrder, ∀ nc : ChunkEntity,
      (wN.insert (IVec3.mk 0 0 0)
        ⟨⟨upd airGrid (ChunkShape.linearize 5 5 5) stoneBlock, ⟨0, 0, 0⟩⟩, []⟩)
        (IVec3.mk 0 0 0 + g.offset) = some nc →
      MirrorInv (upd airGrid (ChunkShape.linearize 5 5 5) stoneBlock) nc.chunk.blocks g
        ∧ gen_geometry nc.chunk.blocks atlas0 = .ok nc.mesh := by
    intro g _ nc hnc
    rw [insert_get_other _ _ _ (add_offset_ne (IVec3.mk 0 0 0) g)] at hnc
    obtain ⟨hM, hgen⟩ := hnbs g nc hnc
    exact ⟨upd_interior_mirrorInv ⟨by decide, by decide⟩ ⟨by decide, by decide⟩
      ⟨by decide, by decide⟩ hM, hgen⟩
  have hreg := regen_of_fold_id
    (insert_get_same wN (IVec3.mk 0 0 0)
      ⟨⟨upd airGrid (ChunkShape.linearize 5 5 5) stoneBlock, ⟨0, 0, 0⟩⟩, []⟩)
    hcond hm
  exact ⟨_, hreg,
    claim_c4_interior_edit_preserves_neighbours wN (IVec3.mk 0 0 0) atlas0 airGrid
      ⟨0, 0, 0⟩ [] 5 5 5 stoneBlock _ ⟨by decide, by decide⟩ ⟨by decide, by decide⟩
      ⟨by decide, by decide⟩ hnbs hreg⟩
